import Mathlib

/-!
Verification development for the GmailFlightScanner repository
(`scanner.py`).  The Python source is shallowly embedded: each extractor
and the reconciliation pipeline of `main` is translated into an
executable Lean definition operating on `String` / `List Char`, and the
specification claims are settled as theorems about those definitions.

Modelling conventions:
* Python strings are `String` (lists of unicode code points); character
  classification (`str.lower`, `str.isupper`, regex classes `\d`, `\w`,
  `\s`, `[A-Z]`, ...) is modelled at the ASCII level, which is the range
  the source's patterns and tables are written in.
* Python `re` matching is embedded by a small backtracking matcher over
  an explicit pattern AST (`Re`), with Python's leftmost search,
  greedy/lazy repetition, left-first alternation, word boundaries and
  capture groups.
* Python dicts keyed by either a string PNR or a `(flightNumber, date)`
  tuple become association lists over the sum-like key type `RKey`.
* `list.remove` (first occurrence of an equal element) is `List.erase`,
  and the final stable `list.sort` is `List.insertionSort` over the same
  key order (both are stable sorts, hence agree).
-/

/-! ## ASCII character helpers -/

/-- ASCII decimal digit test (regex `\d`, ASCII fragment). -/
def isDigitB (c : Char) : Bool := 48 ≤ c.toNat && c.toNat ≤ 57

/-- ASCII uppercase letter test (regex `[A-Z]`). -/
def isUpperB (c : Char) : Bool := 65 ≤ c.toNat && c.toNat ≤ 90

/-- ASCII lowercase letter test (regex `[a-z]`). -/
def isLowerB (c : Char) : Bool := 97 ≤ c.toNat && c.toNat ≤ 122

/-- ASCII letter test. -/
def isAlphaB (c : Char) : Bool := isUpperB c || isLowerB c

/-- Regex word character `\w` (ASCII fragment): letter, digit or underscore. -/
def isWordB (c : Char) : Bool := isAlphaB c || isDigitB c || c.toNat == 95

/-- Regex whitespace `\s` (ASCII fragment): space, tab, LF, VT, FF, CR. -/
def isSpaceB (c : Char) : Bool :=
  c.toNat == 32 || c.toNat == 9 || c.toNat == 10 || c.toNat == 11 || c.toNat == 12 || c.toNat == 13

/-- Regex `.` without DOTALL: any character except newline. -/
def isDotB (c : Char) : Bool := !(c.toNat == 10)

/-- ASCII lower-casing of one character (model of `str.lower`). -/
def lowerChar (c : Char) : Char :=
  if isUpperB c then Char.ofNat (c.toNat + 32) else c

/-- ASCII upper-casing of one character (model of `str.upper`). -/
def upperChar (c : Char) : Char :=
  if isLowerB c then Char.ofNat (c.toNat - 32) else c

/-- Lower-case a whole character list. -/
def lowerData (l : List Char) : List Char := l.map lowerChar

/-- Upper-case a whole character list. -/
def upperData (l : List Char) : List Char := l.map upperChar

/-- Lower-case a string (ASCII model of `str.lower`). -/
def lowerStr (s : String) : String := String.mk (lowerData s.data)

/-- Does `l` start with `p`?  (Executable, structural.) -/
def startsWithL : List Char → List Char → Bool
  | _, [] => true
  | [], _ :: _ => false
  | c :: cs, p :: ps => (c == p) && startsWithL cs ps

/-- Python's `needle in haystack` substring containment test. -/
def containsSub : List Char → List Char → Bool
  | l, p =>
    if startsWithL l p then true
    else match l with
      | [] => false
      | _ :: cs => containsSub cs p

/-- Model of Python `str.isupper` (ASCII): at least one cased character
and no lowercase character. -/
def pyIsUpper (l : List Char) : Bool :=
  l.any (fun c => isAlphaB c) && l.all (fun c => !isLowerB c)

/-- Lexicographic strict order on code-point lists: Python's `<` on `str`. -/
def lexLt : List Char → List Char → Bool
  | [], [] => false
  | [], _ :: _ => true
  | _ :: _, [] => false
  | a :: as, b :: bs =>
    if a.toNat < b.toNat then true
    else if b.toNat < a.toNat then false
    else lexLt as bs

/-- Lexicographic (non-strict) order on code-point lists. -/
def lexLe : List Char → List Char → Bool
  | [], _ => true
  | _ :: _, [] => false
  | a :: as, b :: bs =>
    if a.toNat < b.toNat then true
    else if b.toNat < a.toNat then false
    else lexLe as bs

/-! ## The candidate record (`parse_email`'s returned dict)

The Python record is a dict with string values for the keys
`Date`, `Airline`, `Flight Number`, `From`, `To`, `PNR/Booking Ref`,
`Email Subject`, `Email Date`; the transient `_has_name` boolean is kept
next to the record as a pair component, since `main` deletes it before
reconciliation. -/

structure Flight where
  date : String
  airline : String
  flightNumber : String
  fromCode : String
  toCode : String
  pnr : String
  subject : String
  emailDate : String
deriving DecidableEq

/-! ## Reconciliation engine (`main`, lines 548-587) -/

/-- Richness score `_richness`: number of non-empty fields among
Flight Number, From, To, Airline, Date, PNR/Booking Ref. -/
def richness (f : Flight) : Nat :=
  (if f.flightNumber = "" then 0 else 1) +
  (if f.fromCode = "" then 0 else 1) +
  (if f.toCode = "" then 0 else 1) +
  (if f.airline = "" then 0 else 1) +
  (if f.date = "" then 0 else 1) +
  (if f.pnr = "" then 0 else 1)

/-- Keys of the `seen_pnrs` dict: either a PNR string or a
`(flight number, date)` tuple.  In Python a `str` never equals a
`tuple`, so the shared dict splits into this sum. -/
inductive RKey where
  | ref : String → RKey
  | fd : String → String → RKey
deriving DecidableEq

/-- First-match association-list lookup (Python `dict` lookup; new
bindings are consed in front, shadowing older ones like dict update). -/
def lookupKey (k : RKey) : List (RKey × Flight) → Option Flight
  | [] => none
  | (k', g) :: rest => if k' = k then some g else lookupKey k rest

/-- One iteration of the deduplication loop of `main` (lines 561-581),
transforming the state `(seen_pnrs, deduped)`. -/
def dedupStep (s : List (RKey × Flight) × List Flight) (f : Flight) :
    List (RKey × Flight) × List Flight :=
  if f.pnr = "" then
    if f.flightNumber = "" ∧ f.date = "" then
      (s.1, s.2 ++ [f])
    else
      match lookupKey (RKey.fd f.flightNumber f.date) s.1 with
      | none => ((RKey.fd f.flightNumber f.date, f) :: s.1, s.2 ++ [f])
      | some g =>
        if richness g < richness f then
          ((RKey.fd f.flightNumber f.date, f) :: s.1, s.2.erase g ++ [f])
        else (s.1, s.2)
  else
    match lookupKey (RKey.ref f.pnr) s.1 with
    | none => ((RKey.ref f.pnr, f) :: s.1, s.2 ++ [f])
    | some g =>
      if richness g < richness f then
        ((RKey.ref f.pnr, f) :: s.1, s.2.erase g ++ [f])
      else (s.1, s.2)

/-- The full deduplication loop: fold `dedupStep` from the empty state. -/
def dedupRun (l : List Flight) : List (RKey × Flight) × List Flight :=
  l.foldl dedupStep ([], [])

/-- The `deduped` output list of the loop. -/
def deduped (l : List Flight) : List Flight := (dedupRun l).2

/-- The derived identity key of a record: the PNR when non-empty,
otherwise the (flight number, date) pair, and no key at all when that
pair is `("", "")`. -/
def keyOf (f : Flight) : Option RKey :=
  if f.pnr = "" then
    if f.flightNumber = "" ∧ f.date = "" then none
    else some (RKey.fd f.flightNumber f.date)
  else some (RKey.ref f.pnr)

/-- Sort key of the final sort (line 587): the date, with empty dates
replaced by the sentinel `"9999-99-99"`. -/
def dateKey (f : Flight) : String := if f.date = "" then "9999-99-99" else f.date

/-- The order the final stable sort uses: comparison of sort keys. -/
def flightLE (a b : Flight) : Prop := lexLe (dateKey a).data (dateKey b).data = true

instance : DecidableRel flightLE := fun a b =>
  inferInstanceAs (Decidable (lexLe (dateKey a).data (dateKey b).data = true))

/-- The final sort of `main` (line 587).  Python's `list.sort` is a
stable sort by the key above; `insertionSort` over the same total
preorder is also stable, hence computes the same list. -/
def sortFlights (l : List Flight) : List Flight := l.insertionSort flightLE

/-- The reconciliation engine: deduplication followed by the date sort. -/
def engine (l : List Flight) : List Flight := sortFlights (deduped l)

/-! ## Subject exclusion, signal and passenger-name filters
(`main`, lines 513-541) -/

/-- The static non-flight subject keyword list `EXCLUDE_SUBJECTS`. -/
def EXCLUDE_SUBJECTS : List String :=
  ["hotel booking", "bus booking", "bus ticket", "credit card",
   "account summary", "savings of rs", "missed out on saving",
   "message from our ceo", "message from the ceo",
   "discounts in dubai", "big discounts", "credit note",
   "tax invoice", "gst invoice", "vrl travels",
   "credit card communication", "voucher worth",
   "challenge #", "intermiles credited"]

/-- The hardcoded passenger-name variants `PASSENGER_NAMES`. -/
def PASSENGER_NAMES : List String := ["mohammad sohail ahmad", "sohail ahmad"]

/-- `_is_excluded`: the lower-cased subject contains some excluded keyword. -/
def isExcluded (subject : String) : Bool :=
  EXCLUDE_SUBJECTS.any (fun kw => containsSub (lowerData subject.data) kw.data)

/-- The "actual flight" filter: flight number, PNR, or a complete route. -/
def hasSignal (f : Flight) : Bool :=
  !(f.flightNumber == "") || !(f.pnr == "") ||
    (!(f.fromCode == "") && !(f.toCode == ""))

/-- The post-parsing pipeline of `main`: subject exclusion, the
real-signal filter, the passenger-name filter (the Bool component is the
record's `_has_name`), then the reconciliation engine. -/
def processFlights (recs : List (Flight × Bool)) : List Flight :=
  let nonExcluded := recs.filter (fun r => !isExcluded r.1.subject)
  let actual := nonExcluded.filter (fun r => hasSignal r.1)
  let named := actual.filter (fun r => r.2)
  engine (named.map (fun r => r.1))

/-! ## A small embedding of the Python `re` fragment the source uses

Patterns are explicit ASTs; `matchRe` is a backtracking matcher in
continuation-passing style implementing Python's semantics on the used
fragment: left-first alternation, greedy / lazy counted repetition over
a character class, word boundaries `\b`, and numbered capture groups.
`reSearchAux` is `re.search`'s leftmost scan, `finditerAux` is
`re.finditer`'s non-overlapping iteration, `reSubAll` is `re.sub` with
an empty replacement. -/

inductive Re where
  | eps : Re
  | cls : (Char → Bool) → Re
  | seq : Re → Re → Re
  | alt : Re → Re → Re
  | rep : (Char → Bool) → Nat → Option Nat → Bool → Re
  | wb : Re
  | grp : Nat → Re → Re

/-- First-match lookup of a numbered capture (most recent capture wins,
as in Python where each group records its last match). -/
def lookupCap (i : Nat) : List (Nat × List Char) → Option (List Char)
  | [] => none
  | (j, g) :: rest => if j = i then some g else lookupCap i rest

/-- `match.group(i)` of a capture list. -/
def groupOf (caps : List (Nat × List Char)) (i : Nat) : List Char :=
  (lookupCap i caps).getD []

/-- Word-character test on an optional character (absent = not a word char). -/
def wOpt : Option Char → Bool
  | none => false
  | some c => isWordB c

/-- `\b` at a position given the previous character and the remaining text. -/
def atBoundary (prev : Option Char) (rest : List Char) : Bool :=
  wOpt prev != wOpt (match rest with | c :: _ => some c | [] => none)

/-- Length of the longest prefix of `l` whose characters satisfy `p`. -/
def runLen (p : Char → Bool) : List Char → Nat
  | [] => 0
  | c :: cs => if p c then runLen p cs + 1 else 0

/-- Advance the matcher position by `n` characters. -/
def consumeN : Nat → Option Char → List Char → Option Char × List Char
  | 0, prev, rest => (prev, rest)
  | n + 1, prev, rest =>
    match rest with
    | [] => (prev, rest)
    | c :: cs => consumeN n (some c) cs

/-- Try a repetition count of exactly `n` and hand over to the continuation. -/
def repTry {A : Type} (prev : Option Char) (rest : List Char)
    (caps : List (Nat × List Char))
    (k : Option Char → List Char → List (Nat × List Char) → Option A)
    (n : Nat) : Option A :=
  let pr := consumeN n prev rest
  k pr.1 pr.2 caps

/-- Greedy counted repetition: try `n`, `n-1`, ..., down to `lo`. -/
def repDown {A : Type} (prev : Option Char) (rest : List Char)
    (caps : List (Nat × List Char))
    (k : Option Char → List Char → List (Nat × List Char) → Option A)
    (lo : Nat) : Nat → Option A
  | 0 => repTry prev rest caps k 0
  | n + 1 =>
    match repTry prev rest caps k (n + 1) with
    | some r => some r
    | none => if lo = n + 1 then none else repDown prev rest caps k lo n

/-- Lazy counted repetition: try `cur`, `cur+1`, ... while fuel lasts. -/
def repUp {A : Type} (prev : Option Char) (rest : List Char)
    (caps : List (Nat × List Char))
    (k : Option Char → List Char → List (Nat × List Char) → Option A)
    (cur : Nat) : Nat → Option A
  | 0 => repTry prev rest caps k cur
  | fuel + 1 =>
    match repTry prev rest caps k cur with
    | some r => some r
    | none => repUp prev rest caps k (cur + 1) fuel

/-- The backtracking matcher, anchored at the current position. -/
def matchRe {A : Type} : Re → Option Char → List Char → List (Nat × List Char) →
    (Option Char → List Char → List (Nat × List Char) → Option A) → Option A
  | .eps, prev, rest, caps, k => k prev rest caps
  | .cls p, _prev, rest, caps, k =>
    match rest with
    | [] => none
    | c :: cs => if p c then k (some c) cs caps else none
  | .seq a b, prev, rest, caps, k =>
    matchRe a prev rest caps (fun prev' rest' caps' => matchRe b prev' rest' caps' k)
  | .alt a b, prev, rest, caps, k =>
    match matchRe a prev rest caps k with
    | some res => some res
    | none => matchRe b prev rest caps k
  | .wb, prev, rest, caps, k => if atBoundary prev rest then k prev rest caps else none
  | .rep p lo hi lz, prev, rest, caps, k =>
    let m := runLen p rest
    let hiN := match hi with | none => m | some h => min h m
    if hiN < lo then none
    else if lz then repUp prev rest caps k lo (hiN - lo)
    else repDown prev rest caps k lo hiN
  | .grp i a, prev, rest, caps, k =>
    matchRe a prev rest caps (fun prev' rest' caps' =>
      k prev' rest' ((i, rest.take (rest.length - rest'.length)) :: caps'))

/-- `re.search`'s scan: try a match at every position, leftmost first.
Returns the skipped prefix and the end state with the captures. -/
def reSearchAux (r : Re) : Option Char → List Char →
    Option (List Char × (Option Char × List Char × List (Nat × List Char)))
  | prev, [] =>
    match matchRe r prev [] []
        (fun prev' rest' caps => some (prev', rest', caps)) with
    | some res => some ([], res)
    | none => none
  | prev, c :: cs =>
    match matchRe r prev (c :: cs) []
        (fun prev' rest' caps => some (prev', rest', caps)) with
    | some res => some ([], res)
    | none =>
      match reSearchAux r (some c) cs with
      | some (pre, res) => some (c :: pre, res)
      | none => none

/-- `re.search` from the start of a text, returning only the captures. -/
def reSearch (r : Re) (t : List Char) : Option (List (Nat × List Char)) :=
  match reSearchAux r none t with
  | some (_, (_, _, caps)) => some caps
  | none => none

/-- `re.finditer` / `re.findall`: non-overlapping matches, left to right,
each reported by its capture list (wrap the pattern in group 0 to
recover whole-match texts). -/
def finditerAux (r : Re) : Option Char → List Char → Nat → List (List (Nat × List Char))
  | _, _, 0 => []
  | prev, rest, fuel + 1 =>
    match reSearchAux r prev rest with
    | none => []
    | some (_, (prev', rest', caps)) =>
      if rest'.length < rest.length then caps :: finditerAux r prev' rest' fuel
      else
        match rest' with
        | [] => [caps]
        | c :: cs => caps :: finditerAux r (some c) cs fuel

/-- `re.finditer` over a whole text. -/
def finditer (r : Re) (t : List Char) : List (List (Nat × List Char)) :=
  finditerAux r none t (t.length + 1)

/-- `re.sub(pattern, "", ...)`: delete every non-overlapping match. -/
def reSubAll (r : Re) : Option Char → List Char → Nat → List Char
  | _, rest, 0 => rest
  | prev, rest, fuel + 1 =>
    match reSearchAux r prev rest with
    | none => rest
    | some (pre, (prev', rest', _)) =>
      if rest'.length < rest.length then pre ++ reSubAll r prev' rest' fuel
      else
        match rest' with
        | [] => pre
        | c :: cs => pre ++ c :: reSubAll r (some c) cs fuel

/-- Case-insensitive single-character pattern (`re.IGNORECASE` literal). -/
def charCI (a : Char) (c : Char) : Bool := lowerChar c == lowerChar a

/-- Case-sensitive single-character pattern. -/
def charEq (a : Char) (c : Char) : Bool := c == a

/-- A literal string pattern; `ci` selects `re.IGNORECASE` matching. -/
def litOf (ci : Bool) (s : String) : Re :=
  (s.data.map (fun a => Re.cls (if ci then charCI a else charEq a))).foldr Re.seq Re.eps

/-- Left-first alternation of a list of branches. -/
def altL (rs : List Re) : Re := rs.foldr Re.alt (Re.cls (fun _ => false))

/-- Greedy `?` (one or zero occurrences, preferring one). -/
def reOpt (r : Re) : Re := Re.alt r Re.eps

/-- `\s*`. -/
def wsStar : Re := Re.rep isSpaceB 0 none false

/-- `[A-Z0-9]` under `re.IGNORECASE` (so any ASCII letter, or a digit). -/
def alnumCi (c : Char) : Bool := isAlphaB c || isDigitB c

/-- `[A-Z0-9]` case-sensitive. -/
def alnumUpper (c : Char) : Bool := isUpperB c || isDigitB c

/-! ## Static configuration tables (module-level constants) -/

/-- `KNOWN_AIRLINES`, in insertion (iteration) order. -/
def KNOWN_AIRLINES : List (String × String) :=
  [("airindia", "Air India"), ("indigo", "IndiGo"), ("goindigo", "IndiGo"),
   ("spicejet", "SpiceJet"), ("vistara", "Vistara"), ("airvistara", "Vistara"),
   ("akasaair", "Akasa Air"), ("airasia", "AirAsia"), ("emirates", "Emirates"),
   ("etihad", "Etihad"), ("qatar", "Qatar Airways"), ("qatarairways", "Qatar Airways"),
   ("singapore", "Singapore Airlines"), ("singaporeair", "Singapore Airlines"),
   ("lufthansa", "Lufthansa"), ("british", "British Airways"),
   ("britishairways", "British Airways"), ("klm", "KLM"), ("airfrance", "Air France"),
   ("united", "United Airlines"), ("delta", "Delta Airlines"),
   ("american", "American Airlines"), ("southwest", "Southwest Airlines"),
   ("thai", "Thai Airways"), ("cathay", "Cathay Pacific"),
   ("cathaypacific", "Cathay Pacific"), ("jet", "Jet Airways"),
   ("jetairways", "Jet Airways"), ("goair", "Go First"), ("gofirst", "Go First"),
   ("allianceair", "Alliance Air"), ("starair", "Star Air"), ("flydubai", "FlyDubai"),
   ("omanair", "Oman Air"), ("saudia", "Saudia"), ("turkish", "Turkish Airlines"),
   ("turkishairlines", "Turkish Airlines")]

/-- `AIRLINE_CODES`, in insertion (iteration) order. -/
def AIRLINE_CODES : List (String × String) :=
  [("AI", "Air India"), ("6E", "IndiGo"), ("SG", "SpiceJet"), ("UK", "Vistara"),
   ("QP", "Akasa Air"), ("I5", "AirAsia India"), ("EK", "Emirates"), ("EY", "Etihad"),
   ("QR", "Qatar Airways"), ("SQ", "Singapore Airlines"), ("LH", "Lufthansa"),
   ("BA", "British Airways"), ("KL", "KLM"), ("AF", "Air France"),
   ("UA", "United Airlines"), ("DL", "Delta Airlines"), ("AA", "American Airlines"),
   ("WN", "Southwest Airlines"), ("TG", "Thai Airways"), ("CX", "Cathay Pacific"),
   ("9W", "Jet Airways"), ("G8", "Go First"), ("9I", "Alliance Air"),
   ("S5", "Star Air"), ("FZ", "FlyDubai"), ("WY", "Oman Air"), ("SV", "Saudia"),
   ("TK", "Turkish Airlines")]

/-- `AIRPORT_STOPWORDS` (a Python set literal; duplicates in the source
literal are kept, membership is unaffected). -/
def AIRPORT_STOPWORDS : List String :=
  ["THE", "AND", "FOR", "YOU", "ARE", "HAS", "WAS", "HIS", "HER", "OUR",
   "NOT", "BUT", "ALL", "CAN", "HAD", "ONE", "OUT", "DAY", "GET", "HIM",
   "HOW", "ITS", "MAY", "NEW", "NOW", "OLD", "SEE", "WAY", "WHO", "DID",
   "GOT", "LET", "SAY", "SHE", "TOO", "USE", "PNR", "ADD", "COM", "NON",
   "END", "OFF", "RUN", "SET", "TRY", "PUT", "BIG", "FEW", "FAR", "OWN",
   "SAT", "SIT", "TOP", "RED", "HOT", "CUT", "AGO", "YES", "YET", "RAN",
   "BED", "BOX", "BOY", "CAR", "DOG", "EAR", "EAT", "EYE", "FLY", "GAS",
   "GUN", "HIT", "JOB", "KEY", "LAY", "LEG", "LET", "LIE", "MAP", "MRS",
   "OIL", "PAY", "PER", "RUN", "SIX", "SUN", "TEN", "WAR", "WET", "WIN",
   "WON", "YES", "AIR", "ACT", "AGE", "AID", "AIM", "ART", "ASK", "BAD",
   "BAR", "BIT", "BUY", "COP", "CRY", "DIE", "DIG", "DRY", "DUE", "ERA",
   "FAN", "FAT", "FEE", "FIT", "FUN", "GAP", "HAT", "HIT", "ICE", "ILL",
   "JAM", "JET", "LAW", "LAP", "LOG", "LOT", "LOW", "MAN", "MEN", "MET",
   "MIX", "MOB", "MUD", "NET", "NOR", "NUT", "ODD", "PAN", "PEN", "PET",
   "PIN", "PIT", "POT", "RAW", "RIB", "RID", "ROB", "ROD", "ROW", "RUB",
   "SAD", "SIP", "SKI", "TAP", "TAX", "TIE", "TIN", "TIP", "TOE", "TON",
   "TOW", "TOY", "TUB", "VAN", "VIA", "VOW", "WEB", "WIG", "WIT", "WOE",
   "YEN", "ZOO", "FWD", "REF", "INR", "USD", "EUR", "SMS", "OTP", "URL",
   "PDF", "APP", "API", "RSS", "FAQ", "TBA", "TBD", "ETA", "ETD", "GMT",
   "IST", "EST", "PST", "CST", "UTC", "BAG", "DEP", "ARR", "VIA", "FLT",
   "ONS", "UAE", "USA", "DGR", "VRM", "STD", "STA", "AVL", "CNF", "RAC",
   "GEN", "TAT", "OBC", "INF", "ADT", "CHD", "PAX", "SEQ", "ROW", "QTY",
   "AMT", "TAX", "SUB", "TTL", "NET", "MAX", "MIN", "AVG", "REQ", "RES",
   "MOB", "TEL", "WEB", "ORG", "GOV", "EDU", "MIL", "INT", "EXT", "SRC",
   "DST", "MSG", "ERR", "LOG", "CMD", "SYS", "BUS", "CAB"]

/-- The PNR false-positive stopword set of `extract_pnr` (duplicates of
the source literal kept). -/
def PNR_STOPWORDS : List String :=
  ["NUMBER", "REFERENCE", "BOOKING", "CONFIRM", "DETAIL", "DETAILS",
   "FLIGHT", "STATUS", "CANCEL", "CHANGE", "UPDATE", "ERENCE",
   "RENCE", "UMBER", "ATION", "UMBER", "TICKET", "TRAVEL",
   "PLEASE", "REFUND", "AMOUNT", "TOTAL", "PRICE", "CHARGE",
   "EMAIL", "ISSUE", "BOARD", "CHECK", "PRINT", "VALID",
   "NUMERIC", "STRING", "FORMAT", "RETURN"]

/-! ## `extract_flight_number` (lines 274-286) -/

/-- Primary pattern `\b([A-Z0-9]{2})\s?(\d{1,4})\b`. -/
def fnPat1 : Re :=
  Re.seq Re.wb
  (Re.seq (Re.grp 1 (Re.rep alnumUpper 2 (some 2) false))
  (Re.seq (Re.rep isSpaceB 0 (some 1) false)
  (Re.seq (Re.grp 2 (Re.rep isDigitB 1 (some 4) false)) Re.wb)))

/-- Fallback pattern
`(?:flight|flt|flt\.)\s*(?:no\.?\s*)?([A-Z0-9]{2}\s?\d{1,4})`
under `re.IGNORECASE`. -/
def fnPat2 : Re :=
  Re.seq (altL [litOf true "flight", litOf true "flt",
                Re.seq (litOf true "flt") (Re.cls (charCI '.'))])
  (Re.seq wsStar
  (Re.seq (reOpt (Re.seq (litOf true "no")
                 (Re.seq (reOpt (Re.cls (charCI '.'))) wsStar)))
  (Re.grp 1 (Re.seq (Re.rep alnumCi 2 (some 2) false)
            (Re.seq (Re.rep isSpaceB 0 (some 1) false)
                    (Re.rep isDigitB 1 (some 4) false))))))

/-- The acceptance test of the primary loop: the 2-character code is a
known airline code, or both of its characters are letters. -/
def fnAccept (code : List Char) : Bool :=
  (AIRLINE_CODES.lookup (String.mk code)).isSome ||
    (match code with
     | a :: b :: _ => isAlphaB a && isAlphaB b
     | _ => false)

/-- The `for code, num in matches` loop over the primary `findall`. -/
def fnPick : List (List (Nat × List Char)) → Option String
  | [] => none
  | caps :: rest =>
    let code := groupOf caps 1
    let num := groupOf caps 2
    if fnAccept code then some (String.mk (code ++ num)) else fnPick rest

/-- `extract_flight_number`. -/
def extract_flight_number (text : String) : String :=
  let t := text.data
  match fnPick (finditer fnPat1 t) with
  | some s => s
  | none =>
    match reSearch fnPat2 t with
    | some caps => String.mk ((groupOf caps 1).filter (fun c => !(c == ' ')))
    | none => ""

/-! ## `extract_airport_codes` (lines 289-330) -/

/-- `_valid_airport`: fully uppercase in the source text and not a
stop word. -/
def valid_airport (code : List Char) : Bool :=
  pyIsUpper code && !(AIRPORT_STOPWORDS.contains (String.mk code))

/-- The trailing `\b([A-Z]{3})\b` of both keyword patterns (the class is
case-insensitive because of the global `(?i)`; `_valid_airport` later
enforces upper case). -/
def apGroupTail : Re :=
  Re.seq Re.wb (Re.seq (Re.grp 1 (Re.rep isAlphaB 3 (some 3) false)) Re.wb)

/-- `(?i)(?:from|departure|depart|origin)\s*:?\s*.{0,30}?\b([A-Z]{3})\b`. -/
def fromPat : Re :=
  Re.seq (altL [litOf true "from", litOf true "departure",
                litOf true "depart", litOf true "origin"])
  (Re.seq wsStar
  (Re.seq (reOpt (Re.cls (charCI ':')))
  (Re.seq wsStar
  (Re.seq (Re.rep isDotB 0 (some 30) true) apGroupTail))))

/-- `(?i)(?:to|arrival|arrive|destination)\s*:?\s*.{0,30}?\b([A-Z]{3})\b`. -/
def toPat : Re :=
  Re.seq (altL [litOf true "to", litOf true "arrival",
                litOf true "arrive", litOf true "destination"])
  (Re.seq wsStar
  (Re.seq (reOpt (Re.cls (charCI ':')))
  (Re.seq wsStar
  (Re.seq (Re.rep isDotB 0 (some 30) true) apGroupTail))))

/-- The route separator alternation `(?:→|->|–|—|-)`. -/
def routeSep : Re :=
  altL [litOf false "→", litOf false "->", litOf false "–",
        litOf false "—", litOf false "-"]

/-- Fallback route pattern `\b([A-Z]{3})\s*(?:→|->|–|—|-)\s*([A-Z]{3})\b`
(case-sensitive). -/
def routePat : Re :=
  Re.seq Re.wb
  (Re.seq (Re.grp 1 (Re.rep isUpperB 3 (some 3) false))
  (Re.seq wsStar
  (Re.seq routeSep
  (Re.seq wsStar
  (Re.seq (Re.grp 2 (Re.rep isUpperB 3 (some 3) false)) Re.wb)))))

/-- The `for match in finditer` loop of each side: first candidate that
passes `_valid_airport` wins. -/
def pickAirport : List (List (Nat × List Char)) → String
  | [] => ""
  | caps :: rest =>
    let cand := groupOf caps 1
    if valid_airport cand then String.mk cand else pickAirport rest

/-- `extract_airport_codes`. -/
def extract_airport_codes (text : String) : String × String :=
  let t := text.data
  let fromCode := pickAirport (finditer fromPat t)
  let toCode := pickAirport (finditer toPat t)
  if fromCode == "" || toCode == "" then
    match reSearch routePat t with
    | some caps =>
      (if fromCode == "" && valid_airport (groupOf caps 1)
         then String.mk (groupOf caps 1) else fromCode,
       if toCode == "" && valid_airport (groupOf caps 2)
         then String.mk (groupOf caps 2) else toCode)
    | none => (fromCode, toCode)
  else (fromCode, toCode)

/-! ## `extract_flight_date` (lines 333-380) -/

/-- Month-abbreviation table (`%b`, matched case-insensitively). -/
def MONTH_ABBRS : List (String × Nat) :=
  [("jan", 1), ("feb", 2), ("mar", 3), ("apr", 4), ("may", 5), ("jun", 6),
   ("jul", 7), ("aug", 8), ("sep", 9), ("oct", 10), ("nov", 11), ("dec", 12)]

/-- The `(Jan|Feb|...|Dec)` alternation (case-insensitive). -/
def monthAlt : Re :=
  altL [litOf true "Jan", litOf true "Feb", litOf true "Mar", litOf true "Apr",
        litOf true "May", litOf true "Jun", litOf true "Jul", litOf true "Aug",
        litOf true "Sep", litOf true "Oct", litOf true "Nov", litOf true "Dec"]

/-- Month number of a matched 3-letter abbreviation (0 when unknown). -/
def monthNum (g : List Char) : Nat :=
  (MONTH_ABBRS.lookup (String.mk (lowerData g))).getD 0

/-- Numeric value of a digit string. -/
def natOfDigits (l : List Char) : Nat :=
  l.foldl (fun n c => n * 10 + (c.toNat - 48)) 0

/-- Gregorian leap-year rule (as used by `datetime`). -/
def isLeap (y : Nat) : Bool := y % 4 == 0 && (y % 100 != 0 || y % 400 == 0)

/-- Days in a month. -/
def daysInMonth (y m : Nat) : Nat :=
  if m == 2 then (if isLeap y then 29 else 28)
  else if m == 4 || m == 6 || m == 9 || m == 11 then 30
  else 31

/-- `datetime` constructor validity: `strptime` raises `ValueError`
outside these bounds (year within `MINYEAR..MAXYEAR`, real calendar
day). -/
def dateOk (y m d : Nat) : Bool :=
  1 ≤ y && y ≤ 9999 && 1 ≤ m && m ≤ 12 && 1 ≤ d && d ≤ daysInMonth y m

/-- One ASCII digit character. -/
def digitChar (n : Nat) : Char := Char.ofNat (48 + n)

/-- Two-digit zero-padded decimal (`%m`, `%d` of `strftime`). -/
def pad2 (n : Nat) : List Char := [digitChar (n / 10 % 10), digitChar (n % 10)]

/-- Four-digit zero-padded decimal (`%Y` of `strftime` for the
four-digit years produced here). -/
def pad4 (n : Nat) : List Char :=
  [digitChar (n / 1000 % 10), digitChar (n / 100 % 10),
   digitChar (n / 10 % 10), digitChar (n % 10)]

/-- `strftime("%Y-%m-%d")`. -/
def fmtDate (y m d : Nat) : String :=
  String.mk (pad4 y ++ '-' :: pad2 m ++ '-' :: pad2 d)

/-- The character class of dash and slash. -/
def dashSlash (c : Char) : Bool := c == '-' || c == '/'

/-- The character class of dash, slash and comma. -/
def dashSlashComma (c : Char) : Bool := c == '-' || c == '/' || c == ','

/-- The four date grammars with the `strptime` format each one feeds. -/
inductive DFmt where
  | dmy : DFmt
  | mdy : DFmt
  | ymd : DFmt
  | dmy2 : DFmt

/-- Grammar 1: day, optional dash or slash, month name, optional dash,
slash or comma, four-digit year (word-bounded, IGNORECASE). -/
def datePat1 : Re :=
  Re.seq Re.wb
  (Re.seq (Re.grp 1 (Re.rep isDigitB 1 (some 2) false))
  (Re.seq wsStar
  (Re.seq (reOpt (Re.cls dashSlash))
  (Re.seq wsStar
  (Re.seq (Re.grp 2 monthAlt)
  (Re.seq (Re.rep isAlphaB 0 none false)
  (Re.seq wsStar
  (Re.seq (reOpt (Re.cls dashSlashComma))
  (Re.seq wsStar
  (Re.seq (Re.grp 3 (Re.rep isDigitB 4 (some 4) false)) Re.wb))))))))))

/-- `\b(Jan|...)[a-z]*\s+(\d{1,2})\s*[,]?\s*(\d{4})\b`. -/
def datePat2 : Re :=
  Re.seq Re.wb
  (Re.seq (Re.grp 1 monthAlt)
  (Re.seq (Re.rep isAlphaB 0 none false)
  (Re.seq (Re.rep isSpaceB 1 none false)
  (Re.seq (Re.grp 2 (Re.rep isDigitB 1 (some 2) false))
  (Re.seq wsStar
  (Re.seq (reOpt (Re.cls (charEq ',')))
  (Re.seq wsStar
  (Re.seq (Re.grp 3 (Re.rep isDigitB 4 (some 4) false)) Re.wb))))))))

/-- `\b(\d{4})-(\d{2})-(\d{2})\b`. -/
def datePat3 : Re :=
  Re.seq Re.wb
  (Re.seq (Re.grp 1 (Re.rep isDigitB 4 (some 4) false))
  (Re.seq (Re.cls (charEq '-'))
  (Re.seq (Re.grp 2 (Re.rep isDigitB 2 (some 2) false))
  (Re.seq (Re.cls (charEq '-'))
  (Re.seq (Re.grp 3 (Re.rep isDigitB 2 (some 2) false)) Re.wb)))))

/-- Grammar 4: two-digit day, slash or dash, two-digit month, slash or
dash, four-digit year (word-bounded). -/
def datePat4 : Re :=
  Re.seq Re.wb
  (Re.seq (Re.grp 1 (Re.rep isDigitB 2 (some 2) false))
  (Re.seq (Re.cls dashSlash)
  (Re.seq (Re.grp 2 (Re.rep isDigitB 2 (some 2) false))
  (Re.seq (Re.cls dashSlash)
  (Re.seq (Re.grp 3 (Re.rep isDigitB 4 (some 4) false)) Re.wb)))))

/-- Interpreting the groups of a successful grammar match, exactly as
the `date_str` rebuild plus `strptime` does (month abbreviations are
looked up case-insensitively, then the calendar is validated). -/
def parseGroups : DFmt → List (Nat × List Char) → Option (Nat × Nat × Nat)
  | .dmy, caps =>
    let d := natOfDigits (groupOf caps 1)
    let m := monthNum (groupOf caps 2)
    let y := natOfDigits (groupOf caps 3)
    if dateOk y m d then some (y, m, d) else none
  | .mdy, caps =>
    let m := monthNum (groupOf caps 1)
    let d := natOfDigits (groupOf caps 2)
    let y := natOfDigits (groupOf caps 3)
    if dateOk y m d then some (y, m, d) else none
  | .ymd, caps =>
    let y := natOfDigits (groupOf caps 1)
    let m := natOfDigits (groupOf caps 2)
    let d := natOfDigits (groupOf caps 3)
    if dateOk y m d then some (y, m, d) else none
  | .dmy2, caps =>
    let d := natOfDigits (groupOf caps 1)
    let m := natOfDigits (groupOf caps 2)
    let y := natOfDigits (groupOf caps 3)
    if dateOk y m d then some (y, m, d) else none

/-- The ordered grammar list of `extract_flight_date`. -/
def datePatterns : List (Re × DFmt) :=
  [(datePat1, DFmt.dmy), (datePat2, DFmt.mdy),
   (datePat3, DFmt.ymd), (datePat4, DFmt.dmy2)]

/-- One `re.search` / parse / year-range attempt of the inner loop:
`some` is an accepted (normalized) date, `none` continues the cascade. -/
def datePatTry (t : List Char) (p : Re) (fm : DFmt) : Option String :=
  match reSearch p t with
  | none => none
  | some caps =>
    match parseGroups fm caps with
    | none => none
    | some ymd2 =>
      if 1990 ≤ ymd2.1 && ymd2.1 ≤ 2030
        then some (fmtDate ymd2.1 ymd2.2.1 ymd2.2.2) else none

/-- The inner `for pattern, fmt in date_patterns` loop. -/
def dateTryPatterns : List (Re × DFmt) → List Char → Option String
  | [], _ => none
  | (p, fm) :: ps, t =>
    match datePatTry t p fm with
    | some s => some s
    | none => dateTryPatterns ps t

/-- The outer `for search_text in search_texts` loop. -/
def dateSearchLoop : List (List Char) → Option String
  | [] => none
  | t :: ts =>
    match dateTryPatterns datePatterns t with
    | some s => some s
    | none => dateSearchLoop ts

/-- The keyword-context pattern
`(?:date|departure|depart|travel|journey|flight).{0,80}` (IGNORECASE). -/
def ctxPat : Re :=
  Re.seq (altL [litOf true "date", litOf true "departure", litOf true "depart",
                litOf true "travel", litOf true "journey", litOf true "flight"])
  (Re.rep isDotB 0 (some 80) false)

/-- `re.findall` of the context pattern: the list of matched windows. -/
def dateContexts (t : List Char) : List (List Char) :=
  (finditer (Re.grp 0 ctxPat) t).map (fun caps => groupOf caps 0)

/-- `extract_flight_date`. -/
def extract_flight_date (text : String) : String :=
  let t := text.data
  match dateSearchLoop (dateContexts t ++ [t]) with
  | some s => s
  | none => ""

/-! ## `extract_pnr` (lines 409-431) -/

/-- The shared optional label `(?:no\.?|number|#|:)?`. -/
def pnrLabelOpt : Re :=
  reOpt (altL [Re.seq (litOf true "no") (reOpt (Re.cls (charCI '.'))),
               litOf true "number", litOf true "#", litOf true ":"])

/-- `(?:PNR|pnr|Pnr)\s*(?:no\.?|number|#|:)?\s*:?\s*\b([A-Z0-9]{5,8})\b`
(IGNORECASE). -/
def pnrPat1 : Re :=
  Re.seq (altL [litOf true "PNR", litOf true "pnr", litOf true "Pnr"])
  (Re.seq wsStar
  (Re.seq pnrLabelOpt
  (Re.seq wsStar
  (Re.seq (reOpt (Re.cls (charCI ':')))
  (Re.seq wsStar
  (Re.seq Re.wb
  (Re.seq (Re.grp 1 (Re.rep alnumCi 5 (some 8) false)) Re.wb)))))))

/-- `(?:booking\s*(?:ref|reference|id|code|no)|confirmation\s*(?:no|number|code|#))\s*:?\s*\b([A-Z0-9]{5,8})\b`
(IGNORECASE). -/
def pnrPat2 : Re :=
  Re.seq (Re.alt
    (Re.seq (litOf true "booking")
      (Re.seq wsStar (altL [litOf true "ref", litOf true "reference",
                            litOf true "id", litOf true "code", litOf true "no"])))
    (Re.seq (litOf true "confirmation")
      (Re.seq wsStar (altL [litOf true "no", litOf true "number",
                            litOf true "code", litOf true "#"]))))
  (Re.seq wsStar
  (Re.seq (reOpt (Re.cls (charCI ':')))
  (Re.seq wsStar
  (Re.seq Re.wb
  (Re.seq (Re.grp 1 (Re.rep alnumCi 5 (some 8) false)) Re.wb)))))

/-- `(?:reference|ref\.?)\s*(?:no\.?|number|#|:)?\s*:?\s*\b([A-Z0-9]{6})\b`
(IGNORECASE). -/
def pnrPat3 : Re :=
  Re.seq (Re.alt (litOf true "reference")
                 (Re.seq (litOf true "ref") (reOpt (Re.cls (charCI '.')))))
  (Re.seq wsStar
  (Re.seq pnrLabelOpt
  (Re.seq wsStar
  (Re.seq (reOpt (Re.cls (charCI ':')))
  (Re.seq wsStar
  (Re.seq Re.wb
  (Re.seq (Re.grp 1 (Re.rep alnumCi 6 (some 6) false)) Re.wb)))))))

/-- The ordered grammar cascade of `extract_pnr`. -/
def pnrPatterns : List Re := [pnrPat1, pnrPat2, pnrPat3]

/-- The `for pattern in patterns` loop: first match whose upper-cased
token is not a stop word wins; a stopword hit falls through to the next
grammar. -/
def pnrCascade : List Re → List Char → String
  | [], _ => ""
  | p :: ps, t =>
    match reSearch p t with
    | none => pnrCascade ps t
    | some caps =>
      let cand := String.mk (upperData (groupOf caps 1))
      if PNR_STOPWORDS.contains cand then pnrCascade ps t else cand

/-- `extract_pnr`. -/
def extract_pnr (text : String) : String := pnrCascade pnrPatterns text.data

/-! ## `extract_airline` (lines 383-406) -/

/-- The sender-domain pattern `@([\w.-]+)`. -/
def domainPat : Re :=
  Re.seq (Re.cls (charEq '@'))
         (Re.grp 1 (Re.rep (fun c => isWordB c || c == '.' || c == '-') 1 none false))

/-- Tiers 2 and 3 of the cascade: airline code of the extracted flight
number, then case-insensitive substring scan of the text for a known
airline key or display name. -/
def airlineTier23 (text : String) : String :=
  let fn := extract_flight_number text
  let tier3 :=
    let tl := lowerData text.data
    match KNOWN_AIRLINES.find?
        (fun kv => containsSub tl kv.1.data || containsSub tl (lowerData kv.2.data)) with
    | some kv => kv.2
    | none => ""
  if !(fn == "") && 2 ≤ fn.data.length then
    match AIRLINE_CODES.lookup (String.mk (fn.data.take 2)) with
    | some name => name
    | none => tier3
  else tier3

/-- `extract_airline`: sender domain (lower-cased, dots removed, keys
matched by substring in dict order), then tiers 2 and 3. -/
def extract_airline (text sender : String) : String :=
  match reSearch domainPat sender.data with
  | some caps =>
    let domain := (lowerData (groupOf caps 1)).filter (fun c => !(c == '.'))
    match KNOWN_AIRLINES.find? (fun kv => containsSub domain kv.1.data) with
    | some kv => kv.2
    | none => airlineTier23 text
  | none => airlineTier23 text

/-! ## `parse_email` (lines 434-484): received-date parsing and assembly

The header timestamp is cleaned of a parenthesised timezone comment
(`re.sub` with an empty replacement), stripped, then tried against the
four `strptime` grammars in order; success renders `%Y-%m-%d`.
`strptime` is modelled by recursive-descent parsers for exactly those
grammars (CPython's `_strptime` regexes at the ASCII level: `%a`/`%b`
abbreviated names case-insensitively, `%d`/`%H`/`%M`/`%S` one or two
digits, `%Y` exactly four digits, whitespace runs as one-or-more
whitespace, `%z` a numeric UTC offset or literal `Z`), followed by the
`datetime` range validation. -/

/-- The cleaning pattern of the header date. -/
def parenPat : Re :=
  Re.seq (Re.rep isSpaceB 0 none false)
  (Re.seq (Re.cls (charEq '('))
  (Re.seq (Re.rep isDotB 0 none false) (Re.cls (charEq ')'))))

/-- `str.strip()` (ASCII whitespace model). -/
def stripWs (l : List Char) : List Char :=
  ((l.dropWhile isSpaceB).reverse.dropWhile isSpaceB).reverse

/-- Abbreviated weekday names (`%a`). -/
def WEEKDAYS : List String :=
  ["mon", "tue", "wed", "thu", "fri", "sat", "sun"]

/-- Consume one weekday abbreviation, case-insensitively. -/
def pWeekday (l : List Char) : Option (List Char) :=
  if WEEKDAYS.any (fun w => startsWithL (lowerData l) w.data) then some (l.drop 3)
  else none

/-- Consume one expected character. -/
def pChar (c : Char) (l : List Char) : Option (List Char) :=
  match l with
  | x :: xs => if x == c then some xs else none
  | [] => none

/-- Consume one-or-more whitespace characters (a whitespace run in a
`strptime` format string). -/
def pWs1 (l : List Char) : Option (List Char) :=
  match l with
  | x :: xs => if isSpaceB x then some (xs.dropWhile isSpaceB) else none
  | [] => none

/-- Consume between `lo` and `hi` digits (greedy) and return their value. -/
def pDigits (lo hi : Nat) (l : List Char) : Option (Nat × List Char) :=
  let ds := (l.take hi).takeWhile isDigitB
  if lo ≤ ds.length then some (natOfDigits ds, l.drop ds.length) else none

/-- Consume one month abbreviation (`%b`), case-insensitively. -/
def pMonth (l : List Char) : Option (Nat × List Char) :=
  match MONTH_ABBRS.find? (fun kv => startsWithL (lowerData l) kv.1.data) with
  | some kv => some (kv.2, l.drop 3)
  | none => none

/-- Consume `%H:%M:%S` and validate the ranges `datetime` enforces. -/
def pTime (l : List Char) : Option (List Char) :=
  match pDigits 1 2 l with
  | none => none
  | some (h, l1) =>
    match pChar ':' l1 with
    | none => none
    | some l2 =>
      match pDigits 1 2 l2 with
      | none => none
      | some (mi, l3) =>
        match pChar ':' l3 with
        | none => none
        | some l4 =>
          match pDigits 1 2 l4 with
          | none => none
          | some (s, l5) =>
            if h ≤ 23 && mi ≤ 59 && s ≤ 59 then some l5 else none

/-- Consume a `%z` UTC offset: sign, two digits, optional colon, two
digits, optional seconds (and fraction), or a literal `Z`. -/
def pTz (l : List Char) : Option (List Char) :=
  match l with
  | [] => none
  | c :: xs =>
    if c == 'Z' then some xs
    else if c == '+' || c == '-' then
      match pDigits 2 2 xs with
      | none => none
      | some (_, l1) =>
        let l1' := match pChar ':' l1 with | some l2 => l2 | none => l1
        match pDigits 2 2 l1' with
        | none => none
        | some (_, l3) =>
          let l3' := match pChar ':' l3 with | some l4 => l4 | none => l3
          match pDigits 2 2 l3' with
          | some (_, l5) => some l5
          | none => some l3
    else none

/-- Consume `%d %b %Y %H:%M:%S`, validating the calendar date. -/
def pDayCore (l : List Char) : Option (Nat × Nat × Nat × List Char) :=
  match pDigits 1 2 l with
  | none => none
  | some (d, l1) =>
    match pWs1 l1 with
    | none => none
    | some l2 =>
      match pMonth l2 with
      | none => none
      | some (m, l3) =>
        match pWs1 l3 with
        | none => none
        | some l4 =>
          match pDigits 4 4 l4 with
          | none => none
          | some (y, l5) =>
            match pWs1 l5 with
            | none => none
            | some l6 =>
              match pTime l6 with
              | none => none
              | some l7 =>
                if dateOk y m d then some (y, m, d, l7) else none

/-- Format `%a, %d %b %Y %H:%M:%S %z` (whole string must be consumed). -/
def emailFmt1 (l : List Char) : Option (Nat × Nat × Nat) :=
  match pWeekday l with
  | none => none
  | some l1 =>
    match pChar ',' l1 with
    | none => none
    | some l2 =>
      match pWs1 l2 with
      | none => none
      | some l3 =>
        match pDayCore l3 with
        | none => none
        | some (y, m, d, l4) =>
          match pWs1 l4 with
          | none => none
          | some l5 =>
            match pTz l5 with
            | some [] => some (y, m, d)
            | _ => none

/-- Format `%d %b %Y %H:%M:%S %z`. -/
def emailFmt2 (l : List Char) : Option (Nat × Nat × Nat) :=
  match pDayCore l with
  | none => none
  | some (y, m, d, l1) =>
    match pWs1 l1 with
    | none => none
    | some l2 =>
      match pTz l2 with
      | some [] => some (y, m, d)
      | _ => none

/-- Format `%a, %d %b %Y %H:%M:%S`. -/
def emailFmt3 (l : List Char) : Option (Nat × Nat × Nat) :=
  match pWeekday l with
  | none => none
  | some l1 =>
    match pChar ',' l1 with
    | none => none
    | some l2 =>
      match pWs1 l2 with
      | none => none
      | some l3 =>
        match pDayCore l3 with
        | some (y, m, d, []) => some (y, m, d)
        | _ => none

/-- Format `%d %b %Y %H:%M:%S`. -/
def emailFmt4 (l : List Char) : Option (Nat × Nat × Nat) :=
  match pDayCore l with
  | some (y, m, d, []) => some (y, m, d)
  | _ => none

/-- First successful parse of a list of attempts. -/
def firstSomeD : List (Option (Nat × Nat × Nat)) → Option (Nat × Nat × Nat)
  | [] => none
  | some x :: _ => some x
  | none :: rest => firstSomeD rest

/-- The ordered header-timestamp grammar list. -/
def emailFmtList : List (List Char → Option (Nat × Nat × Nat)) :=
  [emailFmt1, emailFmt2, emailFmt3, emailFmt4]

/-- The received-date parsing of `parse_email` (lines 444-459). -/
def parseEmailDate (raw : String) : String :=
  if raw == "" then ""
  else
    let cleaned := stripWs (reSubAll parenPat none raw.data (raw.data.length + 1))
    match firstSomeD (emailFmtList.map (fun p => p cleaned)) with
    | some ymd2 => fmtDate ymd2.1 ymd2.2.1 ymd2.2.2
    | none => ""

/-- One fetched message, as the out-of-scope collaborators deliver it:
subject, sender, raw date header, flattened body text. -/
structure EmailMsg where
  subject : String
  sender : String
  dateHeader : String
  body : String

/-- `parse_email` (lines 461-484): run every extractor over
`subject + " " + body`, assemble the record, and compute `_has_name`. -/
def parse_email (m : EmailMsg) : Flight × Bool :=
  let email_date := parseEmailDate m.dateHeader
  let full_text := m.subject ++ " " ++ m.body
  let flight_number := extract_flight_number full_text
  let codes := extract_airport_codes full_text
  let flight_date := extract_flight_date full_text
  let airline := extract_airline full_text m.sender
  let pnr := extract_pnr full_text
  let has_name :=
    PASSENGER_NAMES.any (fun nm => containsSub (lowerData full_text.data) nm.data)
  (⟨if flight_date == "" then email_date else flight_date,
    airline, flight_number, codes.1, codes.2, pnr, m.subject, email_date⟩,
   has_name)

/-- The whole pipeline of `main` after fetching: parse every message,
then filter and reconcile. -/
def runScanner (msgs : List EmailMsg) : List Flight :=
  processFlights (msgs.map parse_email)

/-! ## Declarative matching semantics for the `re` fragment

`RMatch r prev u nxt capsIn capsOut` says: pattern `r`, placed after a
(possibly absent) previous character `prev` and before a (possibly
absent) following character `nxt`, can consume exactly the characters
`u`, transforming the capture list.  The matcher below is proved sound
against it, which is what the extractor theorems need: every group a
search reports really is a class-conforming, word-bounded slice of the
text. -/

/-- Last character of `u`, falling back to the previous character when
`u` is empty: the "previous character" after consuming `u`. -/
def lastOr (prev : Option Char) (u : List Char) : Option Char :=
  match u.getLast? with
  | some c => some c
  | none => prev

/-- First character of `v`, falling back to `nxt` when `v` is empty:
the "next character" before consuming `v`. -/
def headOr (v : List Char) (nxt : Option Char) : Option Char :=
  match v with
  | c :: _ => some c
  | [] => nxt

inductive RMatch :
    Re → Option Char → List Char → Option Char →
    List (Nat × List Char) → List (Nat × List Char) → Prop where
  | eps {prev nxt caps} : RMatch Re.eps prev [] nxt caps caps
  | cls {p prev c nxt caps} (h : p c = true) :
      RMatch (Re.cls p) prev [c] nxt caps caps
  | seq {a b prev u v nxt caps caps₁ caps₂}
      (ha : RMatch a prev u (headOr v nxt) caps caps₁)
      (hb : RMatch b (lastOr prev u) v nxt caps₁ caps₂) :
      RMatch (Re.seq a b) prev (u ++ v) nxt caps caps₂
  | altL {a b prev u nxt caps caps'}
      (h : RMatch a prev u nxt caps caps') :
      RMatch (Re.alt a b) prev u nxt caps caps'
  | altR {a b prev u nxt caps caps'}
      (h : RMatch b prev u nxt caps caps') :
      RMatch (Re.alt a b) prev u nxt caps caps'
  | wb {prev nxt caps} (h : (wOpt prev != wOpt nxt) = true) :
      RMatch Re.wb prev [] nxt caps caps
  | rep {p lo hi lz prev u nxt caps}
      (hall : ∀ c ∈ u, p c = true) (hlo : lo ≤ u.length)
      (hhi : ∀ h, hi = some h → u.length ≤ h) :
      RMatch (Re.rep p lo hi lz) prev u nxt caps caps
  | grp {i a prev u nxt caps caps₁}
      (h : RMatch a prev u nxt caps caps₁) :
      RMatch (Re.grp i a) prev u nxt caps ((i, u) :: caps₁)

/-- Patterns without capture groups (they leave the capture list as is). -/
def grpFree : Re → Bool
  | Re.eps => true
  | Re.cls _ => true
  | Re.wb => true
  | Re.rep _ _ _ _ => true
  | Re.seq a b => grpFree a && grpFree b
  | Re.alt a b => grpFree a && grpFree b
  | Re.grp _ _ => false

/-! ## Claim-side format grammars (from the specification's words, for
the field-format invariant) -/

/-- Normalized date shape `YYYY-MM-DD` (four digits, dash, two digits,
dash, two digits). -/
def dateShape (s : String) : Bool :=
  match s.data with
  | [y1, y2, y3, y4, h1, m1, m2, h2, d1, d2] =>
    isDigitB y1 && isDigitB y2 && isDigitB y3 && isDigitB y4 &&
    (h1 == '-') && isDigitB m1 && isDigitB m2 && (h2 == '-') &&
    isDigitB d1 && isDigitB d2
  | _ => false

/-- Airport-code shape: exactly three uppercase ASCII letters. -/
def airportShape (s : String) : Bool :=
  s.data.length == 3 && s.data.all isUpperB

/-- Booking-reference shape: five to eight uppercase alphanumerics. -/
def pnrShape (s : String) : Bool :=
  decide (5 ≤ s.data.length) && decide (s.data.length ≤ 8) &&
    s.data.all alnumUpper

/-- The claim's flight-number grammar: a two-character uppercase
alphanumeric airline code followed by one to four digits. -/
def flightNumGrammar (s : String) : Bool :=
  match s.data with
  | a :: b :: rest =>
    alnumUpper a && alnumUpper b &&
      decide (1 ≤ rest.length) && decide (rest.length ≤ 4) &&
      rest.all isDigitB
  | _ => false

/-- A run of one to four digits. -/
def digitRun14 (r : List Char) : Bool :=
  decide (1 ≤ r.length) && decide (r.length ≤ 4) && r.all isDigitB

/-- The amended flight-number shape the code actually guarantees: two
alphanumeric characters of either case, optionally a whitespace
character other than a space (the space-only `replace(" ", "")` leaves
other `\s` characters of the fallback pattern in place), then one to
four digits. -/
def fnLooseShape (s : String) : Bool :=
  match s.data with
  | a :: b :: rest =>
    alnumCi a && alnumCi b &&
      (digitRun14 rest ||
        (match rest with
         | c :: rest2 => isSpaceB c && !(c == ' ') && digitRun14 rest2
         | [] => false))
  | _ => false

/-- The hypothesis of the airport-extractor claim, in the claim's
words: the text contains no word-bounded three-uppercase-letter token
outside the stopword set.  A token is a slice `g` of the text with no
word character adjacent on either side. -/
def noAirportToken (t : String) : Prop :=
  ∀ a g b : List Char, t.data = a ++ g ++ b → g.length = 3 →
    (∀ c ∈ g, isUpperB c = true) →
    wOpt (lastOr none a) = false → wOpt b.head? = false →
    String.mk g ∈ AIRPORT_STOPWORDS

/-! ## Proof-side predicates about the reconciliation state -/

/-- Does record `f` carry identity key `k`? -/
def keyPred (k : RKey) (f : Flight) : Bool := decide (keyOf f = some k)

/-- The loop invariant tying `seen_pnrs` to `deduped`: a key is bound
in the map exactly when the output holds exactly one record with that
key, namely the bound one. -/
def ReconInv (seen : List (RKey × Flight)) (out : List Flight) : Prop :=
  ∀ k : RKey,
    (∀ g, lookupKey k seen = some g →
       keyOf g = some k ∧ out.filter (keyPred k) = [g]) ∧
    (lookupKey k seen = none → out.filter (keyPred k) = [])

/-- A list holds at most one record per identity key. -/
def SmallKeys (l : List Flight) : Prop :=
  ∀ k : RKey, (l.filter (keyPred k)).length ≤ 1

/-! ## Theorems.  First: the sort order is a total preorder. -/

theorem lexLe_total : ∀ x y : List Char, lexLe x y = true ∨ lexLe y x = true := by
  intro x
  induction x with
  | nil => intro y; left; simp [lexLe]
  | cons a as ih =>
    intro y
    cases y with
    | nil => right; simp [lexLe]
    | cons b bs =>
      simp only [lexLe]
      rcases Nat.lt_trichotomy a.toNat b.toNat with h | h | h
      · left; simp [h]
      · rcases ih bs with h' | h'
        · left; simp [h, h']
        · right; simp [h, h']
      · right; simp [h, Nat.lt_asymm h]

theorem lexLe_trans :
    ∀ x y z : List Char, lexLe x y = true → lexLe y z = true → lexLe x z = true := by
  intro x
  induction x with
  | nil => intro y z _ _; simp [lexLe]
  | cons a as ih =>
    intro y z hxy hyz
    cases y with
    | nil => simp [lexLe] at hxy
    | cons b bs =>
      cases z with
      | nil => simp [lexLe] at hyz
      | cons c cs =>
        simp only [lexLe] at hxy hyz ⊢
        rcases Nat.lt_trichotomy a.toNat c.toNat with h | h | h
        · simp [h]
        · simp only [h, Nat.lt_irrefl, if_false]
          split_ifs at hxy hyz ⊢ with h1 h2 h3 h4 h5
          all_goals try omega
          all_goals try exact ih bs cs hxy hyz
        · exfalso
          split_ifs at hxy hyz with h1 h2 h3 h4
          all_goals omega

theorem lexLt_asymm_le :
    ∀ x y : List Char, lexLe x y = true → lexLt y x = false := by
  intro x
  induction x with
  | nil =>
    intro y _
    cases y <;> simp [lexLt]
  | cons a as ih =>
    intro y hxy
    cases y with
    | nil => simp [lexLe] at hxy
    | cons b bs =>
      simp only [lexLe] at hxy
      simp only [lexLt]
      split_ifs at hxy ⊢ with h1 h2 h3
      all_goals try rfl
      all_goals try omega
      · exact ih bs hxy

instance : IsTotal Flight flightLE :=
  ⟨fun a b => by
    rcases lexLe_total (dateKey a).data (dateKey b).data with h | h
    · exact Or.inl h
    · exact Or.inr h⟩

instance : IsTrans Flight flightLE :=
  ⟨fun _ _ _ h h' => lexLe_trans _ _ _ h h'⟩

/-! ## Case-split lemmas for one deduplication step, phrased through the
derived identity key. -/

theorem dedupStep_noKey {seen : List (RKey × Flight)} {out : List Flight}
    {f : Flight} (h : keyOf f = none) :
    dedupStep (seen, out) f = (seen, out ++ [f]) := by
  by_cases hp : f.pnr = ""
  · by_cases hfd : f.flightNumber = "" ∧ f.date = ""
    · simp [dedupStep, hp, hfd]
    · exfalso; simp [keyOf, hp, hfd] at h
  · exfalso; simp [keyOf, hp] at h

theorem dedupStep_newKey {seen : List (RKey × Flight)} {out : List Flight}
    {f : Flight} {k : RKey} (h : keyOf f = some k)
    (h2 : lookupKey k seen = none) :
    dedupStep (seen, out) f = ((k, f) :: seen, out ++ [f]) := by
  by_cases hp : f.pnr = ""
  · by_cases hfd : f.flightNumber = "" ∧ f.date = ""
    · exfalso; simp [keyOf, hp, hfd] at h
    · have hk : RKey.fd f.flightNumber f.date = k := by
        simpa [keyOf, hp, hfd] using h
      subst hk
      simp [dedupStep, hp, hfd, h2]
  · have hk : RKey.ref f.pnr = k := by
      simpa [keyOf, hp] using h
    subst hk
    simp [dedupStep, hp, h2]

theorem dedupStep_replace {seen : List (RKey × Flight)} {out : List Flight}
    {f g : Flight} {k : RKey} (h : keyOf f = some k)
    (h2 : lookupKey k seen = some g) (h3 : richness g < richness f) :
    dedupStep (seen, out) f = ((k, f) :: seen, out.erase g ++ [f]) := by
  by_cases hp : f.pnr = ""
  · by_cases hfd : f.flightNumber = "" ∧ f.date = ""
    · exfalso; simp [keyOf, hp, hfd] at h
    · have hk : RKey.fd f.flightNumber f.date = k := by
        simpa [keyOf, hp, hfd] using h
      subst hk
      simp [dedupStep, hp, hfd, h2, h3]
  · have hk : RKey.ref f.pnr = k := by
      simpa [keyOf, hp] using h
    subst hk
    simp [dedupStep, hp, h2, h3]

theorem dedupStep_drop {seen : List (RKey × Flight)} {out : List Flight}
    {f g : Flight} {k : RKey} (h : keyOf f = some k)
    (h2 : lookupKey k seen = some g) (h3 : ¬ richness g < richness f) :
    dedupStep (seen, out) f = (seen, out) := by
  by_cases hp : f.pnr = ""
  · by_cases hfd : f.flightNumber = "" ∧ f.date = ""
    · exfalso; simp [keyOf, hp, hfd] at h
    · have hk : RKey.fd f.flightNumber f.date = k := by
        simpa [keyOf, hp, hfd] using h
      subst hk
      simp [dedupStep, hp, hfd, h2, h3]
  · have hk : RKey.ref f.pnr = k := by
      simpa [keyOf, hp] using h
    subst hk
    simp [dedupStep, hp, h2, h3]

theorem lookupKey_cons {k k' : RKey} {g : Flight} {seen : List (RKey × Flight)} :
    lookupKey k ((k', g) :: seen) = if k' = k then some g else lookupKey k seen := rfl

theorem inv_nil : ReconInv [] [] := by
  intro k
  constructor
  · intro g hg; simp [lookupKey] at hg
  · intro _; simp

theorem inv_step {seen : List (RKey × Flight)} {out : List Flight}
    (inv : ReconInv seen out) (f : Flight) :
    ReconInv (dedupStep (seen, out) f).1 (dedupStep (seen, out) f).2 := by
  rcases hk : keyOf f with _ | kf
  · rw [dedupStep_noKey hk]
    intro k
    refine ⟨fun g hg => ?_, fun hnone => ?_⟩
    · obtain ⟨h1, h2⟩ := (inv k).1 g hg
      refine ⟨h1, ?_⟩
      rw [List.filter_append, h2]
      simp [keyPred, hk]
    · rw [List.filter_append, (inv k).2 hnone]
      simp [keyPred, hk]
  · rcases hlk : lookupKey kf seen with _ | g
    · rw [dedupStep_newKey hk hlk]
      intro k
      by_cases hkk : kf = k
      · subst hkk
        refine ⟨fun g' hg' => ?_, fun hnone => ?_⟩
        · rw [lookupKey_cons, if_pos rfl] at hg'
          cases hg'
          refine ⟨hk, ?_⟩
          rw [List.filter_append, (inv kf).2 hlk]
          simp [keyPred, hk]
        · rw [lookupKey_cons, if_pos rfl] at hnone
          cases hnone
      · refine ⟨fun g' hg' => ?_, fun hnone => ?_⟩
        · rw [lookupKey_cons, if_neg hkk] at hg'
          obtain ⟨h1, h2⟩ := (inv k).1 g' hg'
          refine ⟨h1, ?_⟩
          rw [List.filter_append, h2]
          simp [keyPred, hk, hkk]
        · rw [lookupKey_cons, if_neg hkk] at hnone
          rw [List.filter_append, (inv k).2 hnone]
          simp [keyPred, hk, hkk]
    · by_cases hrich : richness g < richness f
      · rw [dedupStep_replace hk hlk hrich]
        obtain ⟨hgk, hflt⟩ := (inv kf).1 g hlk
        have hgmem : g ∈ out := by
          have : g ∈ out.filter (keyPred kf) := by rw [hflt]; simp
          exact List.mem_of_mem_filter this
        obtain ⟨l₁, l₂, hnotin, hout, herase⟩ := List.exists_erase_eq hgmem
        have hfl : out.filter (keyPred kf) =
            l₁.filter (keyPred kf) ++ g :: l₂.filter (keyPred kf) := by
          rw [hout, List.filter_append, List.filter_cons]
          simp [keyPred, hgk]
        have h1nil : l₁.filter (keyPred kf) = [] := by
          rw [hflt] at hfl
          have hlen := congrArg List.length hfl
          simp only [List.length_append, List.length_cons, List.length_nil] at hlen
          exact List.length_eq_zero.mp (by omega)
        have h2nil : l₂.filter (keyPred kf) = [] := by
          rw [hflt] at hfl
          have hlen := congrArg List.length hfl
          simp only [List.length_append, List.length_cons, List.length_nil] at hlen
          exact List.length_eq_zero.mp (by omega)
        intro k
        by_cases hkk : kf = k
        · subst hkk
          refine ⟨fun g' hg' => ?_, fun hnone => ?_⟩
          · rw [lookupKey_cons, if_pos rfl] at hg'
            cases hg'
            refine ⟨hk, ?_⟩
            rw [herase, List.filter_append, List.filter_append, h1nil, h2nil]
            simp [keyPred, hk]
          · rw [lookupKey_cons, if_pos rfl] at hnone
            cases hnone
        · refine ⟨fun g' hg' => ?_, fun hnone => ?_⟩
          · rw [lookupKey_cons, if_neg hkk] at hg'
            obtain ⟨h1, h2⟩ := (inv k).1 g' hg'
            refine ⟨h1, ?_⟩
            have hful : (l₁ ++ l₂).filter (keyPred k) = out.filter (keyPred k) := by
              rw [hout, List.filter_append, List.filter_append, List.filter_cons]
              simp [keyPred, hgk, hkk]
            rw [herase, List.filter_append, hful, h2]
            simp [keyPred, hk, hkk]
          · rw [lookupKey_cons, if_neg hkk] at hnone
            have hful : (l₁ ++ l₂).filter (keyPred k) = out.filter (keyPred k) := by
              rw [hout, List.filter_append, List.filter_append, List.filter_cons]
              simp [keyPred, hgk, hkk]
            rw [herase, List.filter_append, hful, (inv k).2 hnone]
            simp [keyPred, hk, hkk]
      · rw [dedupStep_drop hk hlk hrich]
        exact inv

theorem inv_fold : ∀ (l : List Flight) (s : List (RKey × Flight) × List Flight),
    ReconInv s.1 s.2 →
    ReconInv (l.foldl dedupStep s).1 (l.foldl dedupStep s).2 := by
  intro l
  induction l with
  | nil => intro s h; exact h
  | cons f rest ih =>
    intro s h
    simp only [List.foldl_cons]
    exact ih _ (@inv_step s.1 s.2 h f)

theorem inv_deduped (l : List Flight) : ReconInv (dedupRun l).1 (deduped l) :=
  inv_fold l ([], []) inv_nil

theorem smallKeys_deduped (l : List Flight) : SmallKeys (deduped l) := by
  intro k
  have h := inv_deduped l
  rcases hlk : lookupKey k (dedupRun l).1 with _ | g
  · rw [(h k).2 hlk]; simp
  · rw [((h k).1 g hlk).2]; simp

theorem dedupStep_out_sub {seen : List (RKey × Flight)} {out : List Flight}
    {f x : Flight} (hx : x ∈ (dedupStep (seen, out) f).2) : x ∈ out ∨ x = f := by
  rcases hk : keyOf f with _ | kf
  · rw [dedupStep_noKey hk] at hx
    rcases List.mem_append.mp hx with h | h
    · exact Or.inl h
    · exact Or.inr (List.mem_singleton.mp h)
  · rcases hlk : lookupKey kf seen with _ | g
    · rw [dedupStep_newKey hk hlk] at hx
      rcases List.mem_append.mp hx with h | h
      · exact Or.inl h
      · exact Or.inr (List.mem_singleton.mp h)
    · by_cases hrich : richness g < richness f
      · rw [dedupStep_replace hk hlk hrich] at hx
        rcases List.mem_append.mp hx with h | h
        · exact Or.inl (List.mem_of_mem_erase h)
        · exact Or.inr (List.mem_singleton.mp h)
      · rw [dedupStep_drop hk hlk hrich] at hx
        exact Or.inl hx

theorem mem_foldl_dedup : ∀ (l : List Flight) (s : List (RKey × Flight) × List Flight)
    (x : Flight), x ∈ (l.foldl dedupStep s).2 → x ∈ s.2 ∨ x ∈ l := by
  intro l
  induction l with
  | nil => intro s x hx; exact Or.inl hx
  | cons f rest ih =>
    intro s x hx
    simp only [List.foldl_cons] at hx
    rcases ih _ x hx with h | h
    · rcases @dedupStep_out_sub s.1 s.2 _ _ h with h' | h'
      · exact Or.inl h'
      · exact Or.inr (by simp [h'])
    · exact Or.inr (List.mem_cons_of_mem _ h)

theorem mem_deduped {l : List Flight} {x : Flight} (hx : x ∈ deduped l) : x ∈ l := by
  rcases mem_foldl_dedup l ([], []) x hx with h | h
  · cases h
  · exact h

theorem mem_engine {l : List Flight} {x : Flight} (hx : x ∈ engine l) : x ∈ l := by
  unfold engine sortFlights at hx
  exact mem_deduped ((List.perm_insertionSort flightLE _).mem_iff.mp hx)

theorem dedupStep_count_noKey {seen : List (RKey × Flight)} {out : List Flight}
    {f : Flight} (hf : keyOf f = none) (hs : ReconInv seen out) (h : Flight) :
    (dedupStep (seen, out) h).2.count f
      = out.count f + (if f = h then 1 else 0) := by
  rcases hk : keyOf h with _ | kh
  · rw [dedupStep_noKey hk, List.count_append]
    congr 1
    rw [List.count_singleton']
    by_cases hfh : f = h
    · simp [hfh]
    · simp [hfh, Ne.symm hfh]
  · have hne : f ≠ h := by
      intro he; rw [he, hk] at hf; cases hf
    rcases hlk : lookupKey kh seen with _ | g
    · rw [dedupStep_newKey hk hlk, List.count_append, List.count_singleton']
      simp [hne, Ne.symm hne]
    · by_cases hrich : richness g < richness h
      · rw [dedupStep_replace hk hlk hrich, List.count_append]
        have hgk : keyOf g = some kh := ((hs kh).1 g hlk).1
        have hgne : f ≠ g := by
          intro he; rw [he, hgk] at hf; cases hf
        rw [List.count_erase_of_ne hgne, List.count_singleton']
        simp [hne, Ne.symm hne]
      · rw [dedupStep_drop hk hlk hrich]
        simp [hne]

theorem count_fold_noKey {f : Flight} (hf : keyOf f = none) :
    ∀ (l : List Flight) (s : List (RKey × Flight) × List Flight),
      ReconInv s.1 s.2 →
      (l.foldl dedupStep s).2.count f = s.2.count f + l.count f := by
  intro l
  induction l with
  | nil => intro s _; simp
  | cons h rest ih =>
    intro s hs
    simp only [List.foldl_cons]
    rw [ih _ (@inv_step s.1 s.2 hs h),
        @dedupStep_count_noKey s.1 s.2 _ hf hs h,
        List.count_cons]
    by_cases hfh : f = h
    · simp [hfh]; omega
    · simp [hfh, Ne.symm hfh]

theorem count_deduped_noKey {f : Flight} (hf : keyOf f = none) (l : List Flight) :
    (deduped l).count f = l.count f := by
  have := count_fold_noKey hf l ([], []) inv_nil
  simpa using this

theorem dedup_pass : ∀ (l : List Flight) (seen : List (RKey × Flight)) (out : List Flight),
    (∀ f ∈ l, ∀ k, keyOf f = some k → lookupKey k seen = none) →
    (∀ k, (l.filter (keyPred k)).length ≤ 1) →
    (l.foldl dedupStep (seen, out)).2 = out ++ l := by
  intro l
  induction l with
  | nil => intro seen out _ _; simp
  | cons f rest ih =>
    intro seen out hseen hsmall
    simp only [List.foldl_cons]
    have hrest_small : ∀ k, (rest.filter (keyPred k)).length ≤ 1 := by
      intro k
      have h := hsmall k
      rw [List.filter_cons] at h
      split_ifs at h with hc
      · simp only [List.length_cons] at h; omega
      · exact h
    rcases hk : keyOf f with _ | kf
    · rw [dedupStep_noKey hk]
      rw [ih seen (out ++ [f])
        (fun f' hf' k hk' => hseen f' (List.mem_cons_of_mem _ hf') k hk')
        hrest_small]
      simp
    · have hlk : lookupKey kf seen = none := hseen f (List.mem_cons_self f rest) kf hk
      rw [dedupStep_newKey hk hlk]
      rw [ih ((kf, f) :: seen) (out ++ [f]) ?_ hrest_small]
      · simp
      · intro f' hf' k' hk'
        rw [lookupKey_cons]
        have hne : kf ≠ k' := by
          intro he
          subst he
          have hpf : keyPred kf f = true := by simp [keyPred, hk]
          have h := hsmall kf
          rw [List.filter_cons, if_pos hpf] at h
          have hf'mem : f' ∈ rest.filter (keyPred kf) :=
            List.mem_filter.mpr ⟨hf', by simp [keyPred, hk']⟩
          have hnil : rest.filter (keyPred kf) = [] := by
            have : (rest.filter (keyPred kf)).length = 0 := by
              simp only [List.length_cons] at h; omega
            exact List.length_eq_zero.mp this
          rw [hnil] at hf'mem
          cases hf'mem
        rw [if_neg hne]
        exact hseen f' (List.mem_cons_of_mem _ hf') k' hk'

theorem deduped_eq_self {l : List Flight} (h : SmallKeys l) : deduped l = l := by
  unfold deduped dedupRun
  rw [dedup_pass l [] [] (fun _ _ _ _ => rfl) h]
  simp

theorem smallKeys_perm {l l' : List Flight} (hp : l.Perm l') (h : SmallKeys l) :
    SmallKeys l' := by
  intro k
  rw [← (hp.filter (keyPred k)).length_eq]
  exact h k

theorem foldl_append_single (pre : List Flight) (f : Flight) :
    dedupRun (pre ++ [f]) = dedupStep (dedupRun pre) f := by
  unfold dedupRun
  rw [List.foldl_append]
  rfl

/-- C1: the reconciliation loop, processing candidates in arrival order,
(a) appends a record with empty `bookingRef` and empty
`(flightNumber, flightDate)` pair unconditionally and never merges it
(its multiplicity in the output equals its multiplicity in the input);
(b) records an unseen identity key in the key map and appends the
record; (c) for a seen key replaces the previously kept record exactly
when the new record's richness score is strictly higher — the old entry
is removed from the output and the new one appended — while a tie or
lower score drops the new record. -/
theorem claim_C1 (pre : List Flight) (f : Flight) :
    (keyOf f = none → deduped (pre ++ [f]) = deduped pre ++ [f]) ∧
    (keyOf f = none →
       (deduped (pre ++ [f])).count f = (pre ++ [f]).count f) ∧
    (∀ k, keyOf f = some k → lookupKey k (dedupRun pre).1 = none →
       deduped (pre ++ [f]) = deduped pre ++ [f] ∧
       lookupKey k (dedupRun (pre ++ [f])).1 = some f) ∧
    (∀ k g, keyOf f = some k → lookupKey k (dedupRun pre).1 = some g →
       g ∈ deduped pre ∧
       (richness g < richness f →
          deduped (pre ++ [f]) = (deduped pre).erase g ++ [f]) ∧
       (¬ richness g < richness f → deduped (pre ++ [f]) = deduped pre)) := by
  have hsplit := foldl_append_single pre f
  refine ⟨?_, ?_, ?_, ?_⟩
  · intro hk
    show (dedupRun (pre ++ [f])).2 = deduped pre ++ [f]
    rw [hsplit, @dedupStep_noKey (dedupRun pre).1 (dedupRun pre).2 _ hk]
    rfl
  · intro hk
    exact count_deduped_noKey hk (pre ++ [f])
  · intro k hk hlk
    constructor
    · show (dedupRun (pre ++ [f])).2 = deduped pre ++ [f]
      rw [hsplit,
        @dedupStep_newKey (dedupRun pre).1 (dedupRun pre).2 _ _ hk hlk]
      rfl
    · rw [hsplit,
        @dedupStep_newKey (dedupRun pre).1 (dedupRun pre).2 _ _ hk hlk]
      show lookupKey k ((k, f) :: (dedupRun pre).1) = some f
      rw [lookupKey_cons, if_pos rfl]
  · intro k g hk hlk
    refine ⟨?_, ?_, ?_⟩
    · have h := ((inv_deduped pre k).1 g hlk).2
      have : g ∈ (deduped pre).filter (keyPred k) := by rw [h]; simp
      exact List.mem_of_mem_filter this
    · intro hrich
      show (dedupRun (pre ++ [f])).2 = (deduped pre).erase g ++ [f]
      rw [hsplit,
        @dedupStep_replace (dedupRun pre).1 (dedupRun pre).2 _ _ _ hk hlk hrich]
      rfl
    · intro hrich
      show (dedupRun (pre ++ [f])).2 = deduped pre
      rw [hsplit,
        @dedupStep_drop (dedupRun pre).1 (dedupRun pre).2 _ _ _ hk hlk hrich]
      rfl

/-- Witness for C1 at a concrete input: a second record with the same
booking reference and strictly higher richness replaces the first. -/
theorem claim_C1_witness :
    keyOf ⟨"2025-01-01", "", "", "", "", "ABC12", "", ""⟩ = some (RKey.ref "ABC12") ∧
    lookupKey (RKey.ref "ABC12")
      (dedupRun [⟨"", "", "", "", "", "ABC12", "", ""⟩]).1
      = some ⟨"", "", "", "", "", "ABC12", "", ""⟩ ∧
    richness ⟨"", "", "", "", "", "ABC12", "", ""⟩
      < richness ⟨"2025-01-01", "", "", "", "", "ABC12", "", ""⟩ ∧
    deduped ([⟨"", "", "", "", "", "ABC12", "", ""⟩]
              ++ [⟨"2025-01-01", "", "", "", "", "ABC12", "", ""⟩])
      = (deduped [⟨"", "", "", "", "", "ABC12", "", ""⟩]).erase
          ⟨"", "", "", "", "", "ABC12", "", ""⟩
        ++ [⟨"2025-01-01", "", "", "", "", "ABC12", "", ""⟩] :=
  ⟨by decide, by decide, by decide,
   (((claim_C1 [⟨"", "", "", "", "", "ABC12", "", ""⟩]
        ⟨"2025-01-01", "", "", "", "", "ABC12", "", ""⟩).2.2.2
      (RKey.ref "ABC12") ⟨"", "", "", "", "", "ABC12", "", ""⟩
      (by decide) (by decide)).2.1 (by decide))⟩

/-- C3: the reconciliation engine (deduplication followed by the date
sort) is idempotent: applied to its own output it returns that output
unchanged. -/
theorem claim_C3 (l : List Flight) : engine (engine l) = engine l := by
  have h1 : SmallKeys (deduped l) := smallKeys_deduped l
  have hperm : (sortFlights (deduped l)).Perm (deduped l) :=
    List.perm_insertionSort flightLE _
  have h2 : SmallKeys (sortFlights (deduped l)) := smallKeys_perm hperm.symm h1
  show sortFlights (deduped (sortFlights (deduped l))) = engine l
  rw [deduped_eq_self h2]
  exact List.Sorted.insertionSort_eq (List.sorted_insertionSort flightLE _)

/-- C4: reconciling two identical copies of a record with a non-empty
booking reference yields exactly one output record, equal to that
record (it is both "the richer" and "the first" input, the two being
identical). -/
theorem claim_C4 (r : Flight) (h : r.pnr ≠ "") : engine [r, r] = [r] := by
  have hk : keyOf r = some (RKey.ref r.pnr) := by simp [keyOf, h]
  have hstep1 : dedupStep ([], []) r = ([(RKey.ref r.pnr, r)], [] ++ [r]) :=
    @dedupStep_newKey [] [] _ _ hk rfl
  have hlk2 : lookupKey (RKey.ref r.pnr) [(RKey.ref r.pnr, r)] = some r := by
    rw [lookupKey_cons, if_pos rfl]
  have hstep2 : dedupStep ([(RKey.ref r.pnr, r)], [] ++ [r]) r
      = ([(RKey.ref r.pnr, r)], [] ++ [r]) :=
    dedupStep_drop hk hlk2 (lt_irrefl _)
  have h2 : deduped [r, r] = [r] := by
    show (List.foldl dedupStep ([], []) [r, r]).2 = [r]
    simp only [List.foldl_cons, List.foldl_nil]
    rw [hstep1, hstep2]
    rfl
  show sortFlights (deduped [r, r]) = [r]
  rw [h2]
  rfl

/-- Witness for C4 at a concrete record. -/
theorem claim_C4_witness :
    (⟨"", "", "", "", "", "ABC12", "", ""⟩ : Flight).pnr ≠ "" ∧
    engine [⟨"", "", "", "", "", "ABC12", "", ""⟩,
            ⟨"", "", "", "", "", "ABC12", "", ""⟩]
      = [⟨"", "", "", "", "", "ABC12", "", ""⟩] :=
  ⟨by decide, claim_C4 ⟨"", "", "", "", "", "ABC12", "", ""⟩ (by decide)⟩

/-- C5: after reconciliation the engine's output is sorted ascending by
date key (the stable sort key being the date, empty dates replaced by
the greater-than-any-real-date sentinel `"9999-99-99"`); whenever each
input date is empty or lexicographically below the sentinel — as every
real date is — every empty-date record is ordered after every
non-empty-date record; and the concrete example reconciles dates
`["2025-03-01", "", "2024-12-31"]` to
`["2024-12-31", "2025-03-01", ""]`. -/
theorem claim_C5 :
    (∀ l : List Flight, List.Sorted flightLE (engine l)) ∧
    (∀ l : List Flight,
      (∀ f ∈ l, f.date = "" ∨ lexLt f.date.data ("9999-99-99" : String).data = true) →
      List.Pairwise (fun a b : Flight => a.date = "" → b.date = "") (engine l)) ∧
    (engine [⟨"2025-03-01", "", "", "", "", "AAAAA", "", ""⟩,
             ⟨"", "", "", "", "", "", "", ""⟩,
             ⟨"2024-12-31", "", "", "", "", "BBBBB", "", ""⟩]).map Flight.date
      = ["2024-12-31", "2025-03-01", ""] := by
  refine ⟨?_, ?_, by decide⟩
  · intro l
    exact List.sorted_insertionSort flightLE (deduped l)
  · intro l hdates
    have hs : List.Pairwise flightLE (engine l) :=
      List.sorted_insertionSort flightLE (deduped l)
    refine hs.imp_of_mem ?_
    intro a b ha hb hle hae
    by_contra hbe
    have hbl : b ∈ l := mem_engine hb
    rcases hdates b hbl with h | h
    · exact hbe h
    · have hka : dateKey a = "9999-99-99" := by simp [dateKey, hae]
      have hkb : dateKey b = b.date := by simp [dateKey, hbe]
      have hle' : lexLe ("9999-99-99" : String).data b.date.data = true := by
        have := hle
        unfold flightLE at this
        rw [hka, hkb] at this
        exact this
      have := lexLt_asymm_le _ _ hle'
      rw [h] at this
      cases this

/-- Witness for C5 at a concrete input list. -/
theorem claim_C5_witness :
    List.Pairwise (fun a b : Flight => a.date = "" → b.date = "")
      (engine [⟨"2025-03-01", "", "", "", "", "AAAAA", "", ""⟩,
               ⟨"", "", "", "", "", "", "", ""⟩,
               ⟨"2024-12-31", "", "", "", "", "BBBBB", "", ""⟩]) :=
  claim_C5.2.1 _ (by decide)

/-- C9: every record surviving to the engine's output passed the
subject-exclusion filter (its lower-cased subject contains no entry of
`EXCLUDE_SUBJECTS`) and the real-signal filter (a non-empty flight
number, a non-empty booking reference, or a complete from/to pair); in
particular no output record's subject is
`"Your Hotel Booking Confirmation"`, whatever its flight number. -/
theorem claim_C9 (recs : List (Flight × Bool)) (f : Flight)
    (hf : f ∈ processFlights recs) :
    isExcluded f.subject = false ∧ hasSignal f = true ∧
    (∀ kw ∈ EXCLUDE_SUBJECTS, containsSub (lowerData f.subject.data) kw.data = false) ∧
    (f.flightNumber ≠ "" ∨ f.pnr ≠ "" ∨ (f.fromCode ≠ "" ∧ f.toCode ≠ "")) ∧
    f.subject ≠ "Your Hotel Booking Confirmation" := by
  have hx := mem_engine hf
  obtain ⟨r, hr, hrf⟩ := List.mem_map.mp hx
  obtain ⟨hr2, _⟩ := List.mem_filter.mp hr
  obtain ⟨hr3, hsig⟩ := List.mem_filter.mp hr2
  obtain ⟨_, hexc⟩ := List.mem_filter.mp hr3
  have hexcf : isExcluded f.subject = false := by
    rw [← hrf]
    simpa using hexc
  have hsigf : hasSignal f = true := by rw [← hrf]; simpa using hsig
  refine ⟨hexcf, hsigf, ?_, ?_, ?_⟩
  · intro kw hkw
    by_contra hcon
    have : isExcluded f.subject = true := by
      unfold isExcluded
      rw [List.any_eq_true]
      exact ⟨kw, hkw, by simpa using hcon⟩
    rw [this] at hexcf
    cases hexcf
  · unfold hasSignal at hsigf
    simp only [Bool.or_eq_true, Bool.and_eq_true, Bool.not_eq_true',
      beq_eq_false_iff_ne, ne_eq] at hsigf
    tauto
  · intro he
    have : isExcluded f.subject = true := by rw [he]; decide
    rw [this] at hexcf
    cases hexcf

/-- Witness for C9 at a concrete surviving record. -/
theorem claim_C9_witness :
    isExcluded (⟨"", "", "AI302", "", "", "", "Flight", ""⟩ : Flight).subject = false ∧
    (⟨"", "", "AI302", "", "", "", "Flight", ""⟩ : Flight).subject
      ≠ "Your Hotel Booking Confirmation" := by
  have h := claim_C9 [(⟨"", "", "AI302", "", "", "", "Flight", ""⟩, true)]
    ⟨"", "", "AI302", "", "", "", "Flight", ""⟩ (by decide)
  exact ⟨h.1, h.2.2.2.2⟩

/-- C10: a record reaches the final output only if it was parsed from a
message whose lower-cased subject-plus-body contains one of the two
hardcoded passenger-name strings; records lacking such a name
occurrence never survive the pipeline. -/
theorem claim_C10 (msgs : List EmailMsg) (f : Flight) (hf : f ∈ runScanner msgs) :
    ∃ m ∈ msgs, f = (parse_email m).1 ∧
      ∃ nm ∈ PASSENGER_NAMES,
        containsSub (lowerData (m.subject ++ " " ++ m.body).data) nm.data = true := by
  have hx := mem_engine hf
  obtain ⟨r, hr, hrf⟩ := List.mem_map.mp hx
  obtain ⟨hr2, hname⟩ := List.mem_filter.mp hr
  obtain ⟨hr3, _⟩ := List.mem_filter.mp hr2
  obtain ⟨hr4, _⟩ := List.mem_filter.mp hr3
  obtain ⟨m, hm, hmr⟩ := List.mem_map.mp hr4
  refine ⟨m, hm, ?_, ?_⟩
  · rw [← hrf, ← hmr]
  · have : (parse_email m).2 = true := by rw [hmr]; exact hname
    have hany : PASSENGER_NAMES.any
        (fun nm => containsSub (lowerData (m.subject ++ " " ++ m.body).data) nm.data)
        = true := this
    rw [List.any_eq_true] at hany
    obtain ⟨nm, hnm, hc⟩ := hany
    exact ⟨nm, hnm, hc⟩

/-- Witness for C10 at a concrete message that survives the pipeline. -/
theorem claim_C10_witness :
    ∃ m ∈ [(⟨"Flight booking", "", "",
             "Flight AI 302 PNR: ABC123 sohail ahmad"⟩ : EmailMsg)],
      (parse_email (⟨"Flight booking", "", "",
        "Flight AI 302 PNR: ABC123 sohail ahmad"⟩ : EmailMsg)).1
        = (parse_email m).1 ∧
      ∃ nm ∈ PASSENGER_NAMES,
        containsSub (lowerData (m.subject ++ " " ++ m.body).data) nm.data = true := by
  have h := claim_C10
    [(⟨"Flight booking", "", "", "Flight AI 302 PNR: ABC123 sohail ahmad"⟩ : EmailMsg)]
    (parse_email (⟨"Flight booking", "", "",
      "Flight AI 302 PNR: ABC123 sohail ahmad"⟩ : EmailMsg)).1
    (by decide)
  obtain ⟨m, hm, hpe, hname⟩ := h
  exact ⟨m, hm, hpe, hname⟩

/-! ## Soundness of the matcher against `RMatch` -/

theorem lastOr_nil (p : Option Char) : lastOr p [] = p := rfl

theorem lastOr_cons (p : Option Char) (c : Char) (u : List Char) :
    lastOr p (c :: u) = lastOr (some c) u := by
  induction u generalizing c with
  | nil => rfl
  | cons d u ih =>
    show lastOr p (c :: d :: u) = lastOr (some c) (d :: u)
    unfold lastOr
    rw [List.getLast?_cons_cons]
    rcases h : (d :: u).getLast? with _ | e
    · simp at h
    · rfl

theorem lastOr_append (p : Option Char) (u v : List Char) :
    lastOr p (u ++ v) = lastOr (lastOr p u) v := by
  induction u generalizing p with
  | nil => rfl
  | cons c u ih =>
    rw [List.cons_append, lastOr_cons, lastOr_cons]
    exact ih (some c)

theorem lastOr_ne_nil {u : List Char} (p : Option Char) (h : u ≠ []) :
    lastOr p u = u.getLast? := by
  unfold lastOr
  rcases hg : u.getLast? with _ | c
  · rw [List.getLast?_eq_none_iff] at hg
    exact absurd hg h
  · rfl

theorem headOr_append (v w : List Char) :
    (v ++ w).head? = headOr v w.head? := by
  cases v <;> rfl

theorem headOr_ne_nil {v : List Char} (nxt : Option Char) (h : v ≠ []) :
    headOr v nxt = v.head? := by
  cases v
  · exact absurd rfl h
  · rfl

theorem consumeN_eq :
    ∀ (j : Nat) (prev : Option Char) (rest : List Char), j ≤ rest.length →
      consumeN j prev rest = (lastOr prev (rest.take j), rest.drop j) := by
  intro j
  induction j with
  | zero => intro prev rest _; rfl
  | succ j ih =>
    intro prev rest hle
    cases rest with
    | nil => simp at hle
    | cons c cs =>
      show consumeN j (some c) cs = _
      rw [ih (some c) cs (by simpa using hle)]
      rw [List.take_succ_cons, List.drop_succ_cons, lastOr_cons]

theorem runLen_le_length (p : Char → Bool) : ∀ l : List Char, runLen p l ≤ l.length := by
  intro l
  induction l with
  | nil => simp [runLen]
  | cons c cs ih =>
    unfold runLen
    split_ifs
    · simpa using ih
    · simp

theorem runLen_take (p : Char → Bool) :
    ∀ (l : List Char) (j : Nat), j ≤ runLen p l → ∀ c ∈ l.take j, p c = true := by
  intro l
  induction l with
  | nil => intro j _ c hc; simp at hc
  | cons d cs ih =>
    intro j hj c hc
    unfold runLen at hj
    split_ifs at hj with hd
    · cases j with
      | zero => simp at hc
      | succ j =>
        rw [List.take_succ_cons] at hc
        rcases List.mem_cons.mp hc with h | h
        · rw [h]; exact hd
        · exact ih j (by omega) c h
    · have : j = 0 := by omega
      subst this
      simp at hc

theorem repDown_some {A : Type} {prev : Option Char} {rest : List Char}
    {caps : List (Nat × List Char)}
    {k : Option Char → List Char → List (Nat × List Char) → Option A}
    {lo : Nat} {res : A} :
    ∀ n, lo ≤ n → repDown prev rest caps k lo n = some res →
      ∃ j, lo ≤ j ∧ j ≤ n ∧ repTry prev rest caps k j = some res := by
  intro n
  induction n with
  | zero => intro hlo h; exact ⟨0, hlo, Nat.le_refl 0, h⟩
  | succ n ih =>
    intro hlo h
    unfold repDown at h
    rcases htry : repTry prev rest caps k (n + 1) with _ | r
    · simp only [htry] at h
      split_ifs at h with hstop
      · obtain ⟨j, h1, h2, h3⟩ := ih (by omega) h
        exact ⟨j, h1, by omega, h3⟩
    · simp only [htry] at h
      cases h
      exact ⟨n + 1, hlo, Nat.le_refl _, htry⟩

theorem repUp_some {A : Type} {prev : Option Char} {rest : List Char}
    {caps : List (Nat × List Char)}
    {k : Option Char → List Char → List (Nat × List Char) → Option A} {res : A} :
    ∀ (fuel cur : Nat), repUp prev rest caps k cur fuel = some res →
      ∃ j, cur ≤ j ∧ j ≤ cur + fuel ∧ repTry prev rest caps k j = some res := by
  intro fuel
  induction fuel with
  | zero => intro cur h; exact ⟨cur, Nat.le_refl _, by omega, h⟩
  | succ fuel ih =>
    intro cur h
    unfold repUp at h
    rcases htry : repTry prev rest caps k cur with _ | r
    · simp only [htry] at h
      obtain ⟨j, h1, h2, h3⟩ := ih (cur + 1) h
      exact ⟨j, by omega, by omega, h3⟩
    · simp only [htry] at h
      cases h
      exact ⟨cur, Nat.le_refl _, by omega, htry⟩

theorem atBoundary_head? (prev : Option Char) (rest : List Char) :
    atBoundary prev rest = (wOpt prev != wOpt rest.head?) := by
  cases rest <;> rfl

theorem rep_common {A : Type} {p : Char → Bool} {lo : Nat} {hi : Option Nat}
    {lz : Bool} {prev : Option Char} {rest : List Char}
    {caps : List (Nat × List Char)}
    {k : Option Char → List Char → List (Nat × List Char) → Option A} {res : A}
    (j : Nat) (hj1 : lo ≤ j) (hjm : j ≤ runLen p rest)
    (hhi : ∀ hval, hi = some hval → j ≤ hval)
    (hjt : repTry prev rest caps k j = some res) :
    ∃ u rest' caps', rest = u ++ rest' ∧
      RMatch (Re.rep p lo hi lz) prev u rest'.head? caps caps' ∧
      k (lastOr prev u) rest' caps' = some res := by
  have hjlen : j ≤ rest.length := le_trans hjm (runLen_le_length p rest)
  rw [repTry, consumeN_eq j prev rest hjlen] at hjt
  refine ⟨rest.take j, rest.drop j, caps, (List.take_append_drop j rest).symm, ?_, hjt⟩
  refine RMatch.rep (runLen_take p rest j hjm) ?_ ?_
  · rw [List.length_take]; omega
  · intro hval hh
    rw [List.length_take]
    have := hhi hval hh
    omega

theorem matchRe_sound {A : Type} :
    ∀ (r : Re) (prev : Option Char) (rest : List Char)
      (caps : List (Nat × List Char))
      (k : Option Char → List Char → List (Nat × List Char) → Option A) (res : A),
      matchRe r prev rest caps k = some res →
      ∃ u rest' caps', rest = u ++ rest' ∧
        RMatch r prev u rest'.head? caps caps' ∧
        k (lastOr prev u) rest' caps' = some res := by
  intro r
  induction r with
  | eps =>
    intro prev rest caps k res h
    exact ⟨[], rest, caps, rfl, RMatch.eps, h⟩
  | cls p =>
    intro prev rest caps k res h
    cases rest with
    | nil => simp [matchRe] at h
    | cons c cs =>
      simp only [matchRe] at h
      split_ifs at h with hp
      exact ⟨[c], cs, caps, rfl, RMatch.cls hp, h⟩
  | seq a b iha ihb =>
    intro prev rest caps k res h
    simp only [matchRe] at h
    obtain ⟨u, rest₁, caps₁, hre, hma, hk⟩ := iha _ _ _ _ _ h
    obtain ⟨v, rest', caps', hre₂, hmb, hk₂⟩ := ihb _ _ _ _ _ hk
    refine ⟨u ++ v, rest', caps', by rw [hre, hre₂, List.append_assoc], ?_, ?_⟩
    · have hh : rest₁.head? = headOr v rest'.head? := by rw [hre₂, headOr_append]
      rw [hh] at hma
      exact RMatch.seq hma hmb
    · rw [lastOr_append]; exact hk₂
  | alt a b iha ihb =>
    intro prev rest caps k res h
    simp only [matchRe] at h
    rcases hma : matchRe a prev rest caps k with _ | r₀
    · rw [hma] at h
      obtain ⟨u, rest', caps', hre, hm, hk⟩ := ihb _ _ _ _ _ h
      exact ⟨u, rest', caps', hre, RMatch.altR hm, hk⟩
    · rw [hma] at h
      cases h
      obtain ⟨u, rest', caps', hre, hm, hk⟩ := iha _ _ _ _ _ hma
      exact ⟨u, rest', caps', hre, RMatch.altL hm, hk⟩
  | wb =>
    intro prev rest caps k res h
    simp only [matchRe] at h
    split_ifs at h with hb
    rw [atBoundary_head?] at hb
    exact ⟨[], rest, caps, rfl, RMatch.wb hb, h⟩
  | rep p lo hi lz =>
    intro prev rest caps k res h
    simp only [matchRe] at h
    rcases hi with _ | hval
    · dsimp only at h
      split_ifs at h with h1 h2
      · obtain ⟨j, hj1, hj2, hjt⟩ := repUp_some _ _ h
        have hlo : lo ≤ runLen p rest := le_of_not_lt h1
        exact rep_common j hj1 (by omega) (fun v hv => nomatch hv) hjt
      · obtain ⟨j, hj1, hj2, hjt⟩ := repDown_some _ (le_of_not_lt h1) h
        exact rep_common j hj1 hj2 (fun v hv => nomatch hv) hjt
    · dsimp only at h
      split_ifs at h with h1 h2
      · obtain ⟨j, hj1, hj2, hjt⟩ := repUp_some _ _ h
        have hlo : lo ≤ min hval (runLen p rest) := le_of_not_lt h1
        have hmin1 := min_le_left hval (runLen p rest)
        have hmin2 := min_le_right hval (runLen p rest)
        refine rep_common j hj1 (by omega) ?_ hjt
        intro v hv
        cases hv
        omega
      · obtain ⟨j, hj1, hj2, hjt⟩ := repDown_some _ (le_of_not_lt h1) h
        have hmin1 := min_le_left hval (runLen p rest)
        have hmin2 := min_le_right hval (runLen p rest)
        refine rep_common j hj1 (by omega) ?_ hjt
        intro v hv
        cases hv
        omega
  | grp i a iha =>
    intro prev rest caps k res h
    simp only [matchRe] at h
    obtain ⟨u, rest', caps₁, hre, hma, hk⟩ := iha _ _ _ _ _ h
    have htake : rest.take (rest.length - rest'.length) = u := by
      rw [hre, List.length_append, Nat.add_sub_cancel, List.take_left]
    simp only [htake] at hk
    exact ⟨u, rest', (i, u) :: caps₁, hre, RMatch.grp hma, hk⟩

theorem RMatch_grpFree {r : Re} {prev : Option Char} {u : List Char}
    {nxt : Option Char} {caps caps' : List (Nat × List Char)}
    (h : RMatch r prev u nxt caps caps') (hg : grpFree r = true) : caps' = caps := by
  induction h with
  | eps => rfl
  | cls _ => rfl
  | seq _ _ iha ihb =>
    simp only [grpFree, Bool.and_eq_true] at hg
    rw [ihb hg.2, iha hg.1]
  | altL _ iha =>
    simp only [grpFree, Bool.and_eq_true] at hg
    exact iha hg.1
  | altR _ ihb =>
    simp only [grpFree, Bool.and_eq_true] at hg
    exact ihb hg.2
  | wb _ => rfl
  | rep _ _ _ => rfl
  | grp _ _ => simp [grpFree] at hg

theorem reSearchAux_sound :
    ∀ (rest : List Char) (r : Re) (prev : Option Char) (pre : List Char)
      (prev' : Option Char) (rest' : List Char) (caps : List (Nat × List Char)),
      reSearchAux r prev rest = some (pre, (prev', rest', caps)) →
      ∃ u, rest = pre ++ u ++ rest' ∧ prev' = lastOr (lastOr prev pre) u ∧
           RMatch r (lastOr prev pre) u rest'.head? [] caps := by
  intro rest
  induction rest with
  | nil =>
    intro r prev pre prev' rest' caps h
    simp only [reSearchAux] at h
    rcases hm : matchRe r prev [] []
        (fun prev₀ rest₀ caps₀ => some (prev₀, rest₀, caps₀)) with _ | v
    · rw [hm] at h; cases h
    · rw [hm] at h
      cases h
      obtain ⟨u, rest₀, caps₀, hre, hmm, hk⟩ := matchRe_sound r prev [] [] _ _ hm
      cases hk
      have hu : u = [] := by
        cases u
        · rfl
        · simp at hre
      subst hu
      simp only [List.nil_append] at hre
      subst hre
      exact ⟨[], rfl, rfl, hmm⟩
  | cons c cs ih =>
    intro r prev pre prev' rest' caps h
    simp only [reSearchAux] at h
    rcases hm : matchRe r prev (c :: cs) []
        (fun prev₀ rest₀ caps₀ => some (prev₀, rest₀, caps₀)) with _ | v
    · rw [hm] at h
      rcases hrec : reSearchAux r (some c) cs with _ | pr
      · rw [hrec] at h; cases h
      · rw [hrec] at h
        obtain ⟨pre₀, res₀⟩ := pr
        cases h
        obtain ⟨u, hre, hpv, hmm⟩ := ih r (some c) pre₀ prev' rest' caps hrec
        refine ⟨u, ?_, ?_, ?_⟩
        · rw [List.cons_append, hre]
          simp [List.append_assoc]
        · rw [lastOr_cons]; exact hpv
        · rw [lastOr_cons]; exact hmm
    · rw [hm] at h
      cases h
      obtain ⟨u, rest₀, caps₀, hre, hmm, hk⟩ := matchRe_sound r prev (c :: cs) [] _ _ hm
      cases hk
      exact ⟨u, by rw [hre]; rfl, rfl, hmm⟩

theorem reSearch_sound {r : Re} {t : List Char} {caps : List (Nat × List Char)}
    (h : reSearch r t = some caps) :
    ∃ d u rest', t = d ++ u ++ rest' ∧
      RMatch r (lastOr none d) u rest'.head? [] caps := by
  unfold reSearch at h
  rcases hs : reSearchAux r none t with _ | pr
  · rw [hs] at h; cases h
  · rw [hs] at h
    obtain ⟨pre, prev', rest', caps₀⟩ := pr
    cases h
    obtain ⟨u, hre, _, hmm⟩ := reSearchAux_sound t r none pre prev' rest' caps hs
    exact ⟨pre, u, rest', hre, hmm⟩

theorem finditerAux_sound :
    ∀ (fuel : Nat) (r : Re) (done rest : List Char)
      (caps : List (Nat × List Char)),
      caps ∈ finditerAux r (lastOr none done) rest fuel →
      ∃ d u rest₂, done ++ rest = d ++ u ++ rest₂ ∧
        RMatch r (lastOr none d) u rest₂.head? [] caps := by
  intro fuel
  induction fuel with
  | zero => intro r done rest caps h; simp [finditerAux] at h
  | succ fuel ih =>
    intro r done rest caps h
    simp only [finditerAux] at h
    rcases hs : reSearchAux r (lastOr none done) rest with _ | pr
    · rw [hs] at h; simp at h
    · rw [hs] at h
      obtain ⟨pre, prev', rest', caps₀⟩ := pr
      dsimp only at h
      obtain ⟨u, hre, hpv, hmm⟩ :=
        reSearchAux_sound rest r (lastOr none done) pre prev' rest' caps₀ hs
      have hdpre : lastOr (lastOr none done) pre = lastOr none (done ++ pre) :=
        (lastOr_append none done pre).symm
      have hprev' : prev' = lastOr none (done ++ pre ++ u) := by
        rw [hpv, List.append_assoc, lastOr_append none done (pre ++ u),
          lastOr_append (lastOr none done) pre u]
      have hsplit : done ++ rest = (done ++ pre) ++ u ++ rest' := by
        rw [hre]; simp [List.append_assoc]
      split_ifs at h with hlt
      · rcases List.mem_cons.mp h with hc | hc
        · subst hc
          refine ⟨done ++ pre, u, rest', hsplit, ?_⟩
          rw [← hdpre]; exact hmm
        · have := ih r (done ++ pre ++ u) rest' caps (by rw [← hprev']; exact hc)
          obtain ⟨d, u₂, rest₂, heq, hm₂⟩ := this
          refine ⟨d, u₂, rest₂, ?_, hm₂⟩
          rw [hsplit, ← heq]
      · rcases hrest' : rest' with _ | ⟨c, cs2⟩
        · rw [hrest'] at h
          dsimp only at h
          rcases List.mem_singleton.mp h with hc
          subst hc
          refine ⟨done ++ pre, u, rest', hsplit, ?_⟩
          rw [← hdpre]; exact hmm
        · rw [hrest'] at h
          dsimp only at h
          rcases List.mem_cons.mp h with hc | hc
          · subst hc
            refine ⟨done ++ pre, u, rest', hsplit, ?_⟩
            rw [← hdpre]; exact hmm
          · have hlast : lastOr none (done ++ pre ++ u ++ [c]) = some c := by
              rw [lastOr_append]; rfl
            have := ih r (done ++ pre ++ u ++ [c]) cs2 caps (by rw [hlast]; exact hc)
            obtain ⟨d, u₂, rest₂, heq, hm₂⟩ := this
            refine ⟨d, u₂, rest₂, ?_, hm₂⟩
            rw [hsplit, hrest', ← heq]
            simp [List.append_assoc]

theorem finditer_sound {r : Re} {t : List Char} {caps : List (Nat × List Char)}
    (h : caps ∈ finditer r t) :
    ∃ d u rest', t = d ++ u ++ rest' ∧
      RMatch r (lastOr none d) u rest'.head? [] caps := by
  have h' : caps ∈ finditerAux r (lastOr none []) t (t.length + 1) := h
  obtain ⟨d, u, rest₂, heq, hm⟩ := finditerAux_sound (t.length + 1) r [] t caps h'
  exact ⟨d, u, rest₂, by simpa using heq, hm⟩

/-! ## Inversion lemmas for the concrete patterns -/

theorem space_not_word {c : Char} (h : isSpaceB c = true) : isWordB c = false := by
  simp only [isSpaceB, Bool.or_eq_true, beq_iff_eq] at h
  simp only [isWordB, isAlphaB, isUpperB, isLowerB, isDigitB, Bool.or_eq_false_iff,
    Bool.and_eq_false_iff, beq_eq_false_iff_ne, ne_eq, decide_eq_false_iff_not, not_le]
  omega

theorem upper_word {c : Char} (h : isUpperB c = true) : isWordB c = true := by
  simp only [isWordB, isAlphaB, Bool.or_eq_true]
  exact Or.inl (Or.inl (Or.inl h))

theorem mem_of_getLastEq : ∀ {l : List Char} {c : Char}, l.getLast? = some c → c ∈ l := by
  intro l
  induction l with
  | nil => intro c hc; cases hc
  | cons x xs ih =>
    intro c hc
    cases xs with
    | nil =>
      simp only [List.getLast?_singleton, Option.some_inj] at hc
      simp [hc]
    | cons y ys =>
      rw [List.getLast?_cons_cons] at hc
      exact List.mem_cons_of_mem x (ih hc)

theorem litEq_inv :
    ∀ (l : List Char) {prev : Option Char} {u : List Char} {nxt : Option Char}
      {caps caps' : List (Nat × List Char)},
      RMatch ((l.map (fun a => Re.cls (charEq a))).foldr Re.seq Re.eps)
        prev u nxt caps caps' →
      u = l ∧ caps' = caps := by
  intro l
  induction l with
  | nil =>
    intro prev u nxt caps caps' h
    cases h
    exact ⟨rfl, rfl⟩
  | cons a l ih =>
    intro prev u nxt caps caps' h
    cases h with
    | seq h1 h2 =>
      cases h1 with
      | cls hc =>
        rename_i c
        obtain ⟨hv, hcap⟩ := ih h2
        subst hv
        have hca : c = a := by simpa [charEq] using hc
        subst hca
        exact ⟨rfl, hcap⟩

theorem litOf_false (s : String) :
    litOf false s = (s.data.map (fun a => Re.cls (charEq a))).foldr Re.seq Re.eps := rfl

theorem routeSep_inv {prev : Option Char} {u : List Char} {nxt : Option Char}
    {caps caps' : List (Nat × List Char)}
    (h : RMatch routeSep prev u nxt caps caps') :
    caps' = caps ∧ u ≠ [] ∧
    (∀ c, u.head? = some c → isWordB c = false) ∧
    (∀ c, u.getLast? = some c → isWordB c = false) := by
  have done : ∀ (s : String), u = s.data →
      (∀ c ∈ s.data, isWordB c = false) → s.data ≠ [] →
      u ≠ [] ∧ (∀ c, u.head? = some c → isWordB c = false) ∧
      (∀ c, u.getLast? = some c → isWordB c = false) := by
    intro s he hall hne
    subst he
    refine ⟨hne, ?_, ?_⟩
    · intro c hc
      refine hall c ?_
      rcases hd : s.data with _ | ⟨x, xs⟩
      · rw [hd] at hc; cases hc
      · rw [hd] at hc
        simp only [List.head?_cons, Option.some_inj] at hc
        rw [← hc]
        exact List.mem_cons_self x xs
    · intro c hc
      exact hall c (mem_of_getLastEq hc)
  unfold routeSep altL at h
  simp only [List.foldr] at h
  cases h with
  | altL h1 =>
    obtain ⟨hu, hc⟩ := litEq_inv _ (litOf_false "→" ▸ h1)
    exact ⟨hc, done "→" hu (by decide) (by decide)⟩
  | altR h1 =>
    cases h1 with
    | altL h2 =>
      obtain ⟨hu, hc⟩ := litEq_inv _ (litOf_false "->" ▸ h2)
      exact ⟨hc, done "->" hu (by decide) (by decide)⟩
    | altR h2 =>
      cases h2 with
      | altL h3 =>
        obtain ⟨hu, hc⟩ := litEq_inv _ (litOf_false "–" ▸ h3)
        exact ⟨hc, done "–" hu (by decide) (by decide)⟩
      | altR h3 =>
        cases h3 with
        | altL h4 =>
          obtain ⟨hu, hc⟩ := litEq_inv _ (litOf_false "—" ▸ h4)
          exact ⟨hc, done "—" hu (by decide) (by decide)⟩
        | altR h4 =>
          cases h4 with
          | altL h5 =>
            obtain ⟨hu, hc⟩ := litEq_inv _ (litOf_false "-" ▸ h5)
            exact ⟨hc, done "-" hu (by decide) (by decide)⟩
          | altR h5 =>
            cases h5 with
            | cls hc => simp at hc

theorem apGroupTail_inv {prev : Option Char} {u : List Char} {nxt : Option Char}
    {caps caps' : List (Nat × List Char)}
    (h : RMatch apGroupTail prev u nxt caps caps') :
    caps' = (1, u) :: caps ∧ u.length = 3 ∧ (∀ c ∈ u, isAlphaB c = true) ∧
    (wOpt prev != wOpt (headOr u nxt)) = true ∧
    (wOpt (lastOr prev u) != wOpt nxt) = true := by
  cases h with
  | seq h1 h2 =>
    cases h1 with
    | wb hb1 =>
      cases h2 with
      | seq h3 h4 =>
        cases h3 with
        | grp h5 =>
          cases h5 with
          | rep hall hlo hhi =>
            cases h4 with
            | wb hb2 =>
              rename_i g
              have hlen : g.length = 3 := by
                have := hhi 3 rfl
                omega
              refine ⟨by simp, ?_, ?_, ?_, ?_⟩
              · simpa using hlen
              · intro c hc
                exact hall c (by simpa using hc)
              · simpa using hb1
              · simpa [lastOr] using hb2

theorem kwTail_inv {kw : Re} (hg : grpFree kw = true)
    {prev : Option Char} {u : List Char} {nxt : Option Char}
    {caps caps' : List (Nat × List Char)}
    (h : RMatch (Re.seq kw (Re.seq wsStar (Re.seq (reOpt (Re.cls (charCI ':')))
        (Re.seq wsStar (Re.seq (Re.rep isDotB 0 (some 30) true) apGroupTail)))))
        prev u nxt caps caps') :
    ∃ w g, u = w ++ g ∧ caps' = (1, g) :: caps ∧ g.length = 3 ∧
      (∀ c ∈ g, isAlphaB c = true) ∧
      (wOpt (lastOr prev w) != wOpt (headOr g nxt)) = true ∧
      (wOpt (lastOr (lastOr prev w) g) != wOpt nxt) = true := by
  cases h with
  | seq h1 h2 =>
    rename_i u1 v1 c1
    have e1 := RMatch_grpFree h1 hg
    subst e1
    cases h2 with
    | seq h3 h4 =>
      rename_i u2 v2 c2
      have e2 := RMatch_grpFree h3 rfl
      subst e2
      cases h4 with
      | seq h5 h6 =>
        rename_i u3 v3 c3
        have e3 := RMatch_grpFree h5 rfl
        subst e3
        cases h6 with
        | seq h7 h8 =>
          rename_i u4 v4 c4
          have e4 := RMatch_grpFree h7 rfl
          subst e4
          cases h8 with
          | seq h9 h10 =>
            rename_i u5 v5 c5
            have e5 := RMatch_grpFree h9 rfl
            subst e5
            obtain ⟨hcaps, hlen, halpha, hb1, hb2⟩ := apGroupTail_inv h10
            refine ⟨u1 ++ (u2 ++ (u3 ++ (u4 ++ u5))), v5, ?_, hcaps, hlen, halpha, ?_, ?_⟩
            · simp [List.append_assoc]
            · simpa [lastOr_append] using hb1
            · simpa [lastOr_append] using hb2

theorem head?_append_left {x y : List Char} (hx : x ≠ []) :
    (x ++ y).head? = x.head? := by
  cases x
  · exact absurd rfl hx
  · rfl

theorem getLast?_append_right {x y : List Char} (hy : y ≠ []) :
    (x ++ y).getLast? = y.getLast? := by
  have h1 : (x ++ y) ≠ [] := by
    intro hc
    rcases List.append_eq_nil.mp hc with ⟨_, h2⟩
    exact hy h2
  rw [← lastOr_ne_nil none h1, lastOr_append, lastOr_ne_nil _ hy]

theorem bne_true_left {a : Bool} (h : (a != true) = true) : a = false := by
  cases a
  · rfl
  · cases h

theorem bne_true_right {a : Bool} (h : (true != a) = true) : a = false := by
  cases a
  · rfl
  · cases h

theorem routePat_inv {prev : Option Char} {u : List Char} {nxt : Option Char}
    {caps caps' : List (Nat × List Char)}
    (h : RMatch routePat prev u nxt caps caps') :
    ∃ g1 mid g2, u = g1 ++ mid ++ g2 ∧
      caps' = (2, g2) :: (1, g1) :: caps ∧
      g1.length = 3 ∧ (∀ c ∈ g1, isUpperB c = true) ∧
      g2.length = 3 ∧ (∀ c ∈ g2, isUpperB c = true) ∧
      wOpt prev = false ∧
      mid ≠ [] ∧ (∀ c, mid.head? = some c → isWordB c = false) ∧
      (∀ c, mid.getLast? = some c → isWordB c = false) ∧
      wOpt nxt = false := by
  cases h with
  | seq h1 h2 =>
    rename_i u1 v1 c1
    cases h1 with
    | wb hb0 =>
      cases h2 with
      | seq h3 h4 =>
        rename_i u2 v2 c2
        cases h3 with
        | grp h3' =>
          rename_i c2'
          cases h3' with
          | rep hall1 hlo1 hhi1 =>
            cases h4 with
            | seq h5 h6 =>
              rename_i u3 v3 c3
              cases h5 with
              | rep hsp1 _ _ =>
                cases h6 with
                | seq h7 h8 =>
                  rename_i u4 v4 c4
                  obtain ⟨hc4, hne4, hhead4, hlast4⟩ := routeSep_inv h7
                  subst hc4
                  cases h8 with
                  | seq h9 h10 =>
                    rename_i u5 v5 c5
                    cases h9 with
                    | rep hsp2 _ _ =>
                      cases h10 with
                      | seq h11 h12 =>
                        rename_i u6 v6 c6
                        cases h11 with
                        | grp h11' =>
                          cases h11' with
                          | rep hall2 hlo2 hhi2 =>
                            cases h12 with
                            | wb hb3 =>
                              have hlen1 : u2.length = 3 := by
                                have := hhi1 3 rfl; omega
                              have hlen2 : u6.length = 3 := by
                                have := hhi2 3 rfl; omega
                              have hu2ne : u2 ≠ [] := by
                                intro hc; rw [hc] at hlen1; cases hlen1
                              have hu6ne : u6 ≠ [] := by
                                intro hc; rw [hc] at hlen2; cases hlen2
                              refine ⟨u2, u3 ++ (u4 ++ u5), u6, ?_, ?_, hlen1, hall1,
                                hlen2, hall2, ?_, ?_, ?_, ?_, ?_⟩
                              · simp [List.append_assoc]
                              · rfl
                              · -- start boundary: next char is the head of u2
                                rcases u2 with _ | ⟨a, arest⟩
                                · exact absurd rfl hu2ne
                                · have ha : isUpperB a = true :=
                                    hall1 a (List.mem_cons_self a arest)
                                  simp only [List.cons_append, headOr, wOpt] at hb0
                                  rw [upper_word ha] at hb0
                                  exact bne_true_left hb0
                              · intro hc
                                rcases List.append_eq_nil.mp hc with ⟨_, h2⟩
                                rcases List.append_eq_nil.mp h2 with ⟨h3, _⟩
                                exact hne4 h3
                              · intro c hc
                                rcases hu3 : u3 with _ | ⟨s, srest⟩
                                · rw [hu3] at hc
                                  simp only [List.nil_append] at hc
                                  rw [head?_append_left hne4] at hc
                                  exact hhead4 c hc
                                · rw [hu3] at hc
                                  simp only [List.cons_append, List.head?_cons,
                                    Option.some_inj] at hc
                                  rw [← hc]
                                  refine space_not_word (hsp1 s ?_)
                                  rw [hu3]
                                  exact List.mem_cons_self s srest
                              · intro c hc
                                rcases hu5 : u5 with _ | ⟨s, srest⟩
                                · rw [hu5] at hc
                                  simp only [List.append_nil] at hc
                                  rw [getLast?_append_right hne4] at hc
                                  exact hlast4 c hc
                                · rw [hu5] at hc
                                  have hne5 : (s :: srest) ≠ [] := by simp
                                  rw [getLast?_append_right
                                    (by simp : u4 ++ s :: srest ≠ []),
                                    getLast?_append_right hne5] at hc
                                  refine space_not_word (hsp2 c ?_)
                                  rw [hu5]
                                  exact mem_of_getLastEq hc
                              · -- end boundary: previous char is the last of u6
                                have hl6 : ∀ p, lastOr p u6 = u6.getLast? :=
                                  fun p => lastOr_ne_nil p hu6ne
                                rcases hg : u6.getLast? with _ | c
                                · rw [List.getLast?_eq_none_iff] at hg
                                  exact absurd hg hu6ne
                                · have hcu : isUpperB c = true :=
                                    hall2 c (mem_of_getLastEq hg)
                                  rw [hl6, hg] at hb3
                                  simp only [wOpt] at hb3
                                  rw [upper_word hcu] at hb3
                                  exact bne_true_right hb3

theorem alpha_not_lower_upper {c : Char} (ha : isAlphaB c = true)
    (hl : isLowerB c = false) : isUpperB c = true := by
  simp only [isAlphaB, Bool.or_eq_true] at ha
  rcases ha with h | h
  · exact h
  · rw [h] at hl; cases hl

theorem upper_not_lower {c : Char} (h : isUpperB c = true) : isLowerB c = false := by
  simp only [isUpperB, Bool.and_eq_true, decide_eq_true_eq] at h
  simp only [isLowerB, Bool.and_eq_false_iff, decide_eq_false_iff_not, not_le]
  omega

theorem pyIsUpper_of_upper {g : List Char} (hne : g ≠ [])
    (hall : ∀ c ∈ g, isUpperB c = true) : pyIsUpper g = true := by
  unfold pyIsUpper
  rw [Bool.and_eq_true]
  constructor
  · rw [List.any_eq_true]
    rcases g with _ | ⟨c, cs⟩
    · exact absurd rfl hne
    · exact ⟨c, List.mem_cons_self c cs, by
        have := hall c (List.mem_cons_self c cs)
        simp only [isAlphaB, Bool.or_eq_true]
        exact Or.inl this⟩
  · rw [List.all_eq_true]
    intro c hc
    simp only [Bool.not_eq_true']
    exact upper_not_lower (hall c hc)

theorem pyIsUpper_upper {g : List Char} (hp : pyIsUpper g = true)
    (hall : ∀ c ∈ g, isAlphaB c = true) : ∀ c ∈ g, isUpperB c = true := by
  intro c hc
  unfold pyIsUpper at hp
  rw [Bool.and_eq_true, List.all_eq_true] at hp
  have := hp.2 c hc
  simp only [Bool.not_eq_true'] at this
  exact alpha_not_lower_upper (hall c hc) this

theorem pickAirport_none {ms : List (List (Nat × List Char))}
    (h : ∀ caps ∈ ms, valid_airport (groupOf caps 1) = false) :
    pickAirport ms = "" := by
  induction ms with
  | nil => rfl
  | cons caps rest ih =>
    have hc := h caps (List.mem_cons_self caps rest)
    simp only [pickAirport, hc, Bool.false_eq_true, if_false]
    exact ih (fun c hcm => h c (List.mem_cons_of_mem caps hcm))

theorem valid_airport_false_of_stopword {g : List Char}
    (h : String.mk g ∈ AIRPORT_STOPWORDS) : valid_airport g = false := by
  unfold valid_airport
  have : AIRPORT_STOPWORDS.contains (String.mk g) = true := by
    rw [List.contains_eq_any_beq, List.any_eq_true]
    exact ⟨String.mk g, h, by simp⟩
  rw [this]
  simp

theorem valid_airport_false_of_not_upper {g : List Char}
    (h : pyIsUpper g = false) : valid_airport g = false := by
  unfold valid_airport
  rw [h]
  rfl

theorem kwPat_candidate_invalid {kw : Re} (hg : grpFree kw = true) {t : String}
    (hyp : noAirportToken t) {caps : List (Nat × List Char)}
    (hin : caps ∈ finditer (Re.seq kw (Re.seq wsStar
      (Re.seq (reOpt (Re.cls (charCI ':')))
      (Re.seq wsStar (Re.seq (Re.rep isDotB 0 (some 30) true) apGroupTail))))) t.data) :
    valid_airport (groupOf caps 1) = false := by
  obtain ⟨d, u, rest', heq, hm⟩ := finditer_sound hin
  obtain ⟨w, g, hu, hcaps, hlen, halpha, hb1, hb2⟩ := kwTail_inv hg hm
  have hgrp : groupOf caps 1 = g := by
    rw [hcaps]; simp [groupOf, lookupCap]
  rw [hgrp]
  by_cases hup : pyIsUpper g = true
  · have hupper : ∀ c ∈ g, isUpperB c = true := pyIsUpper_upper hup halpha
    have hgne : g ≠ [] := by
      intro hc; rw [hc] at hlen; cases hlen
    -- left boundary
    have hleft : wOpt (lastOr none (d ++ w)) = false := by
      rcases g with _ | ⟨a, arest⟩
      · exact absurd rfl hgne
      · have ha := hupper a (List.mem_cons_self a arest)
        simp only [headOr, wOpt] at hb1
        rw [upper_word ha] at hb1
        rw [lastOr_append]
        exact bne_true_left hb1
    -- right boundary
    have hright : wOpt rest'.head? = false := by
      have hl : lastOr (lastOr (lastOr none d) w) g = g.getLast? :=
        lastOr_ne_nil _ hgne
      rcases hgl : g.getLast? with _ | c
      · rw [List.getLast?_eq_none_iff] at hgl
        exact absurd hgl hgne
      · have hcu := hupper c (mem_of_getLastEq hgl)
        rw [hl, hgl] at hb2
        simp only [wOpt] at hb2
        rw [upper_word hcu] at hb2
        exact bne_true_right hb2
    have hsplit : t.data = (d ++ w) ++ g ++ rest' := by
      rw [heq, hu]
      simp [List.append_assoc]
    exact valid_airport_false_of_stopword
      (hyp (d ++ w) g rest' hsplit hlen hupper hleft hright)
  · exact valid_airport_false_of_not_upper (Bool.not_eq_true _ ▸
      (by simpa using hup))

theorem routePat_groups_invalid {t : String} (hyp : noAirportToken t)
    {caps : List (Nat × List Char)} (hs : reSearch routePat t.data = some caps) :
    valid_airport (groupOf caps 1) = false ∧
    valid_airport (groupOf caps 2) = false := by
  obtain ⟨d, u, rest', heq, hm⟩ := reSearch_sound hs
  obtain ⟨g1, mid, g2, hu, hcaps, hlen1, hall1, hlen2, hall2, hprev, hmne,
    hmhead, hmlast, hnxt⟩ := routePat_inv hm
  have hg1 : groupOf caps 1 = g1 := by rw [hcaps]; simp [groupOf, lookupCap]
  have hg2 : groupOf caps 2 = g2 := by rw [hcaps]; simp [groupOf, lookupCap]
  constructor
  · rw [hg1]
    have hsplit : t.data = d ++ g1 ++ (mid ++ (g2 ++ rest')) := by
      rw [heq, hu]; simp [List.append_assoc]
    have hright : wOpt (mid ++ (g2 ++ rest')).head? = false := by
      rw [head?_append_left hmne]
      rcases hh : mid.head? with _ | c
      · rw [List.head?_eq_none_iff] at hh
        exact absurd hh hmne
      · simp only [wOpt]
        exact hmhead c hh
    exact valid_airport_false_of_stopword
      (hyp d g1 (mid ++ (g2 ++ rest')) hsplit hlen1 hall1 hprev hright)
  · rw [hg2]
    have hsplit : t.data = (d ++ g1 ++ mid) ++ g2 ++ rest' := by
      rw [heq, hu]; simp [List.append_assoc]
    have hleft : wOpt (lastOr none (d ++ g1 ++ mid)) = false := by
      rw [lastOr_append, lastOr_ne_nil _ hmne]
      rcases hh : mid.getLast? with _ | c
      · rw [List.getLast?_eq_none_iff] at hh
        exact absurd hh hmne
      · simp only [wOpt]
        exact hmlast c hh
    exact valid_airport_false_of_stopword
      (hyp (d ++ g1 ++ mid) g2 rest' hsplit hlen2 hall2 hleft hnxt)

theorem noAirportToken_of_noUpper {t : String}
    (h : ∀ c ∈ t.data, isUpperB c = false) : noAirportToken t := by
  intro a g b heq hlen hall _ _
  exfalso
  rcases g with _ | ⟨c, cs⟩
  · cases hlen
  · have hc : c ∈ t.data := by
      rw [heq]
      simp
    have h1 := h c hc
    rw [hall c (List.mem_cons_self c cs)] at h1
    cases h1

/-- C8: a candidate airport code passes the validity filter iff it is
fully uppercase in the source text and not a member of the fixed
airport stopword set; and over any text containing no word-bounded
three-uppercase-letter token outside that set the airport-pair
extractor returns `("", "")` — a total function, never a fault. -/
theorem claim_C8 :
    (∀ code : List Char, valid_airport code = true ↔
       (pyIsUpper code = true ∧ String.mk code ∉ AIRPORT_STOPWORDS)) ∧
    (∀ t : String, noAirportToken t → extract_airport_codes t = ("", "")) := by
  constructor
  · intro code
    have hmem : (AIRPORT_STOPWORDS.contains (String.mk code) = true) ↔
        String.mk code ∈ AIRPORT_STOPWORDS := by
      rw [List.contains_eq_any_beq, List.any_eq_true]
      constructor
      · rintro ⟨x, hx, hbeq⟩
        have : String.mk code = x := by simpa using hbeq
        rw [this]
        exact hx
      · intro h
        exact ⟨String.mk code, h, by simp⟩
    unfold valid_airport
    rw [Bool.and_eq_true]
    constructor
    · rintro ⟨h1, h2⟩
      refine ⟨h1, fun hmem' => ?_⟩
      rw [Bool.not_eq_true'] at h2
      rw [hmem.mpr hmem'] at h2
      cases h2
    · rintro ⟨h1, h2⟩
      refine ⟨h1, ?_⟩
      rw [Bool.not_eq_true']
      rcases hct : AIRPORT_STOPWORDS.contains (String.mk code) with _ | _
      · rfl
      · exact absurd (hmem.mp hct) h2
  · intro t hyp
    have hfrom : pickAirport (finditer fromPat t.data) = "" :=
      pickAirport_none (fun caps hc => @kwPat_candidate_invalid
        (altL [litOf true "from", litOf true "departure",
               litOf true "depart", litOf true "origin"]) rfl t hyp caps hc)
    have hto : pickAirport (finditer toPat t.data) = "" :=
      pickAirport_none (fun caps hc => @kwPat_candidate_invalid
        (altL [litOf true "to", litOf true "arrival",
               litOf true "arrive", litOf true "destination"]) rfl t hyp caps hc)
    rcases hs : reSearch routePat t.data with _ | caps
    · simp [extract_airport_codes, hfrom, hto, hs]
    · obtain ⟨h1, h2⟩ := routePat_groups_invalid hyp hs
      simp [extract_airport_codes, hfrom, hto, hs, h1, h2]

/-- Witness for C8 at a concrete text without any uppercase letter. -/
theorem claim_C8_witness : extract_airport_codes "the cat sat on the mat" = ("", "") :=
  claim_C8.2 "the cat sat on the mat" (noAirportToken_of_noUpper (by decide))

theorem contains_of_mem {s : String} {l : List String} (h : s ∈ l) :
    l.contains s = true := by
  rw [List.contains_eq_any_beq, List.any_eq_true]
  exact ⟨s, h, by simp⟩

theorem pnrCascade_no_stopword :
    ∀ (ps : List Re) (l : List Char), pnrCascade ps l ∉ PNR_STOPWORDS := by
  intro ps
  induction ps with
  | nil =>
    intro l h
    simp only [pnrCascade] at h
    exact absurd h (by decide)
  | cons p rest ih =>
    intro l
    unfold pnrCascade
    rcases hs : reSearch p l with _ | caps
    · exact ih l
    · rcases hct : PNR_STOPWORDS.contains
        (String.mk (upperData (groupOf caps 1))) with _ | _
      · simp only [hct, Bool.false_eq_true, if_false]
        intro hmem
        rw [contains_of_mem hmem] at hct
        cases hct
      · simp only [hct, if_true]
        exact ih l

/-- C6: the booking-reference extractor returns `"ABC1234"` on
`"PNR: ABC1234"`, returns `""` on `"PNR: NUMBER"` (the first grammar's
match is stopword-rejected and the remaining grammars fail), and never
returns a member of the PNR stopword set on any text. -/
theorem claim_C6 :
    extract_pnr "PNR: ABC1234" = "ABC1234" ∧
    extract_pnr "PNR: NUMBER" = "" ∧
    (∀ t : String, extract_pnr t ∉ PNR_STOPWORDS) :=
  ⟨by decide, by decide, fun t => pnrCascade_no_stopword pnrPatterns t.data⟩

/-- Witness for C6's universally quantified clause at a concrete text. -/
theorem claim_C6_witness : extract_pnr "PNR: ABC1234" ∉ PNR_STOPWORDS :=
  claim_C6.2.2 "PNR: ABC1234"

theorem parseGroups_ok {fm : DFmt} {caps : List (Nat × List Char)}
    {y m d : Nat} (h : parseGroups fm caps = some (y, m, d)) :
    dateOk y m d = true := by
  cases fm <;> (
    unfold parseGroups at h
    dsimp only at h
    split_ifs at h with hok
    · cases h; exact hok)

theorem datePatTry_shape {t : List Char} {p : Re} {fm : DFmt} {s : String}
    (h : datePatTry t p fm = some s) :
    ∃ y m d, 1990 ≤ y ∧ y ≤ 2030 ∧ dateOk y m d = true ∧ s = fmtDate y m d := by
  unfold datePatTry at h
  rcases hs : reSearch p t with _ | caps
  · rw [hs] at h; cases h
  · rw [hs] at h
    dsimp only at h
    rcases hp : parseGroups fm caps with _ | ymd2
    · rw [hp] at h; cases h
    · rw [hp] at h
      dsimp only at h
      obtain ⟨y, m, d⟩ := ymd2
      split_ifs at h with hr
      cases h
      rw [Bool.and_eq_true, decide_eq_true_eq, decide_eq_true_eq] at hr
      exact ⟨y, m, d, hr.1, hr.2, parseGroups_ok hp, rfl⟩

theorem dateTryPatterns_shape :
    ∀ (ps : List (Re × DFmt)) (t : List Char) (s : String),
      dateTryPatterns ps t = some s →
      ∃ y m d, 1990 ≤ y ∧ y ≤ 2030 ∧ dateOk y m d = true ∧ s = fmtDate y m d := by
  intro ps
  induction ps with
  | nil => intro t s h; cases h
  | cons pr rest ih =>
    intro t s h
    obtain ⟨p, fm⟩ := pr
    unfold dateTryPatterns at h
    rcases ht : datePatTry t p fm with _ | s₀
    · rw [ht] at h
      exact ih t s h
    · rw [ht] at h
      cases h
      exact datePatTry_shape ht

theorem dateSearchLoop_shape :
    ∀ (ts : List (List Char)) (s : String), dateSearchLoop ts = some s →
      ∃ y m d, 1990 ≤ y ∧ y ≤ 2030 ∧ dateOk y m d = true ∧ s = fmtDate y m d := by
  intro ts
  induction ts with
  | nil => intro s h; cases h
  | cons t rest ih =>
    intro s h
    unfold dateSearchLoop at h
    rcases ht : dateTryPatterns datePatterns t with _ | s₀
    · rw [ht] at h
      exact ih s h
    · rw [ht] at h
      cases h
      exact dateTryPatterns_shape datePatterns t s ht

/-- C7: date extraction of
`"Your flight departs on 15-Jan-2025 at 10AM"` yields `"2025-01-15"`,
and in general the extractor returns either the empty string or the
`%Y-%m-%d` rendering of a calendar-valid date whose year lies within
`[1990, 2030]` (any match outside that range, or failing to parse, is
skipped and the cascade continues). -/
theorem claim_C7 :
    extract_flight_date "Your flight departs on 15-Jan-2025 at 10AM" = "2025-01-15" ∧
    (∀ t : String, extract_flight_date t = "" ∨
      ∃ y m d, 1990 ≤ y ∧ y ≤ 2030 ∧ dateOk y m d = true ∧
        extract_flight_date t = fmtDate y m d) := by
  refine ⟨by decide, ?_⟩
  intro t
  have hdef : extract_flight_date t =
      match dateSearchLoop (dateContexts t.data ++ [t.data]) with
      | some s => s
      | none => "" := rfl
  rw [hdef]
  rcases hs : dateSearchLoop (dateContexts t.data ++ [t.data]) with _ | s
  · exact Or.inl rfl
  · obtain ⟨y, m, d, h1, h2, h3, h4⟩ :=
      dateSearchLoop_shape (dateContexts t.data ++ [t.data]) s hs
    exact Or.inr ⟨y, m, d, h1, h2, h3, h4⟩

/-! ## Field-format facts for the assembled record (claim C2) -/

theorem toNat_ofNat_lt {n : Nat} (h : n < 55296) : (Char.ofNat n).toNat = n := by
  unfold Char.ofNat
  rw [dif_pos (Or.inl h)]
  rfl

theorem digitChar_digit : ∀ k, k < 10 → isDigitB (digitChar k) = true := by decide

theorem dateShape_fmtDate (y m d : Nat) : dateShape (fmtDate y m d) = true := by
  have h4 : ∀ n : Nat, isDigitB (digitChar (n % 10)) = true :=
    fun n => digitChar_digit (n % 10) (Nat.mod_lt _ (by omega))
  unfold fmtDate dateShape pad4 pad2
  simp only [List.cons_append, List.nil_append]
  simp [h4]

theorem parseEmailDate_shape (raw : String) :
    parseEmailDate raw = "" ∨ dateShape (parseEmailDate raw) = true := by
  unfold parseEmailDate
  split_ifs with h
  · exact Or.inl rfl
  · dsimp only
    rcases hm : firstSomeD (List.map (fun p => p (stripWs
      (reSubAll parenPat none raw.data (raw.data.length + 1)))) emailFmtList) with _ | ymd2
    · simp only [hm]
      exact Or.inl trivial
    · simp only [hm]
      right
      exact dateShape_fmtDate ymd2.1 ymd2.2.1 ymd2.2.2

theorem extract_flight_date_shape (t : String) :
    extract_flight_date t = "" ∨ dateShape (extract_flight_date t) = true := by
  have hdef : extract_flight_date t =
      match dateSearchLoop (dateContexts t.data ++ [t.data]) with
      | some s => s
      | none => "" := rfl
  rw [hdef]
  rcases hs : dateSearchLoop (dateContexts t.data ++ [t.data]) with _ | s
  · exact Or.inl rfl
  · obtain ⟨y, m, d, _, _, _, h4⟩ :=
      dateSearchLoop_shape (dateContexts t.data ++ [t.data]) s hs
    rw [h4]
    exact Or.inr (dateShape_fmtDate y m d)

theorem lookup_mem {k v : String} :
    ∀ {l : List (String × String)}, List.lookup k l = some v → (k, v) ∈ l := by
  intro l
  induction l with
  | nil => intro h; cases h
  | cons kv rest ih =>
    intro h
    obtain ⟨k', v'⟩ := kv
    unfold List.lookup at h
    rcases hb : (k == k') with _ | _
    · rw [hb] at h
      exact List.mem_cons_of_mem _ (ih h)
    · rw [hb] at h
      cases h
      have : k = k' := by simpa using hb
      rw [this]
      exact List.mem_cons_self _ _

theorem extract_airline_mem (text sender : String) :
    extract_airline text sender = "" ∨
    extract_airline text sender ∈ KNOWN_AIRLINES.map Prod.snd ∨
    extract_airline text sender ∈ AIRLINE_CODES.map Prod.snd := by
  have htier : ∀ t : String, airlineTier23 t = "" ∨
      airlineTier23 t ∈ KNOWN_AIRLINES.map Prod.snd ∨
      airlineTier23 t ∈ AIRLINE_CODES.map Prod.snd := by
    intro t
    unfold airlineTier23
    dsimp only
    split_ifs with h1
    · rcases hl : List.lookup (String.mk
        (List.take 2 (extract_flight_number t).data)) AIRLINE_CODES with _ | name
      · simp only [hl]
        rcases hf : List.find? (fun kv =>
          containsSub (lowerData t.data) kv.1.data ||
          containsSub (lowerData t.data) (lowerData kv.2.data)) KNOWN_AIRLINES with _ | kv
        · simp only [hf]
          exact Or.inl trivial
        · simp only [hf]
          refine Or.inr (Or.inl ?_)
          exact List.mem_map.mpr ⟨kv, List.mem_of_find?_eq_some hf, rfl⟩
      · simp only [hl]
        refine Or.inr (Or.inr ?_)
        exact List.mem_map.mpr ⟨_, lookup_mem hl, rfl⟩
    · rcases hf : List.find? (fun kv =>
        containsSub (lowerData t.data) kv.1.data ||
        containsSub (lowerData t.data) (lowerData kv.2.data)) KNOWN_AIRLINES with _ | kv
      · simp only [hf]
        exact Or.inl trivial
      · simp only [hf]
        refine Or.inr (Or.inl ?_)
        exact List.mem_map.mpr ⟨kv, List.mem_of_find?_eq_some hf, rfl⟩
  unfold extract_airline
  rcases hs : reSearch domainPat sender.data with _ | caps
  · exact htier text
  · dsimp only
    rcases hf : List.find? (fun kv => containsSub
      (List.filter (fun c => !(c == '.')) (lowerData (groupOf caps 1))) kv.1.data)
      KNOWN_AIRLINES with _ | kv
    · simp only [hf]
      exact htier text
    · simp only [hf]
      refine Or.inr (Or.inl ?_)
      exact List.mem_map.mpr ⟨kv, List.mem_of_find?_eq_some hf, rfl⟩

theorem seqGrpFree_peel {a b : Re}
    {prev : Option Char} {u : List Char} {nxt : Option Char}
    {caps caps' : List (Nat × List Char)}
    (h : RMatch (Re.seq a b) prev u nxt caps caps') (hg : grpFree a = true) :
    ∃ u1 u2, u = u1 ++ u2 ∧ RMatch b (lastOr prev u1) u2 nxt caps caps' := by
  cases h with
  | seq h1 h2 =>
    rename_i u1 v1 c1
    have e1 := RMatch_grpFree h1 hg
    subst e1
    exact ⟨u1, v1, rfl, h2⟩

theorem grpRepTail_inv {p : Char → Bool} {lo hi : Nat}
    {prev : Option Char} {u : List Char} {nxt : Option Char}
    {caps caps' : List (Nat × List Char)}
    (h : RMatch (Re.seq Re.wb (Re.seq (Re.grp 1 (Re.rep p lo (some hi) false)) Re.wb))
      prev u nxt caps caps') :
    ∃ g, u = g ∧ caps' = (1, g) :: caps ∧ lo ≤ g.length ∧ g.length ≤ hi ∧
      ∀ c ∈ g, p c = true := by
  cases h with
  | seq h1 h2 =>
    cases h1 with
    | wb hb1 =>
      cases h2 with
      | seq h3 h4 =>
        cases h3 with
        | grp h5 =>
          cases h5 with
          | rep hall hlo hhi =>
            cases h4 with
            | wb hb2 =>
              rename_i g
              exact ⟨g, by simp, by simp, hlo, hhi hi rfl, hall⟩

theorem pnrPat1_inv {prev : Option Char} {u : List Char} {nxt : Option Char}
    {caps caps' : List (Nat × List Char)}
    (h : RMatch pnrPat1 prev u nxt caps caps') :
    ∃ g, caps' = (1, g) :: caps ∧ 5 ≤ g.length ∧ g.length ≤ 8 ∧
      ∀ c ∈ g, alnumCi c = true := by
  obtain ⟨_, _, _, h2⟩ := seqGrpFree_peel h rfl
  obtain ⟨_, _, _, h4⟩ := seqGrpFree_peel h2 rfl
  obtain ⟨_, _, _, h6⟩ := seqGrpFree_peel h4 rfl
  obtain ⟨_, _, _, h8⟩ := seqGrpFree_peel h6 rfl
  obtain ⟨_, _, _, h10⟩ := seqGrpFree_peel h8 rfl
  obtain ⟨_, _, _, h12⟩ := seqGrpFree_peel h10 rfl
  obtain ⟨g, _, hc, h5, h8', hall⟩ := grpRepTail_inv h12
  exact ⟨g, hc, h5, h8', hall⟩

theorem pnrPat2_inv {prev : Option Char} {u : List Char} {nxt : Option Char}
    {caps caps' : List (Nat × List Char)}
    (h : RMatch pnrPat2 prev u nxt caps caps') :
    ∃ g, caps' = (1, g) :: caps ∧ 5 ≤ g.length ∧ g.length ≤ 8 ∧
      ∀ c ∈ g, alnumCi c = true := by
  obtain ⟨_, _, _, h2⟩ := seqGrpFree_peel h rfl
  obtain ⟨_, _, _, h4⟩ := seqGrpFree_peel h2 rfl
  obtain ⟨_, _, _, h6⟩ := seqGrpFree_peel h4 rfl
  obtain ⟨_, _, _, h8⟩ := seqGrpFree_peel h6 rfl
  obtain ⟨g, _, hc, h5, h8', hall⟩ := grpRepTail_inv h8
  exact ⟨g, hc, h5, h8', hall⟩

theorem pnrPat3_inv {prev : Option Char} {u : List Char} {nxt : Option Char}
    {caps caps' : List (Nat × List Char)}
    (h : RMatch pnrPat3 prev u nxt caps caps') :
    ∃ g, caps' = (1, g) :: caps ∧ 5 ≤ g.length ∧ g.length ≤ 8 ∧
      ∀ c ∈ g, alnumCi c = true := by
  obtain ⟨_, _, _, h2⟩ := seqGrpFree_peel h rfl
  obtain ⟨_, _, _, h4⟩ := seqGrpFree_peel h2 rfl
  obtain ⟨_, _, _, h6⟩ := seqGrpFree_peel h4 rfl
  obtain ⟨_, _, _, h8⟩ := seqGrpFree_peel h6 rfl
  obtain ⟨_, _, _, h10⟩ := seqGrpFree_peel h8 rfl
  obtain ⟨_, _, _, h12⟩ := seqGrpFree_peel h10 rfl
  obtain ⟨g, _, hc, h6', h6'', hall⟩ := grpRepTail_inv h12
  exact ⟨g, hc, by omega, by omega, hall⟩

theorem upperChar_alnum {c : Char} (h : alnumCi c = true) :
    alnumUpper (upperChar c) = true := by
  unfold upperChar
  by_cases hl : isLowerB c = true
  · rw [if_pos hl]
    simp only [isLowerB, Bool.and_eq_true, decide_eq_true_eq] at hl
    have hlt : c.toNat - 32 < 55296 := by omega
    simp only [alnumUpper, isUpperB, isDigitB, Bool.or_eq_true, Bool.and_eq_true,
      decide_eq_true_eq, toNat_ofNat_lt hlt]
    left
    omega
  · rw [if_neg hl]
    simp only [alnumCi, isAlphaB, Bool.or_eq_true] at h
    rcases h with (hu | hlo) | hd
    · simp only [alnumUpper, Bool.or_eq_true]
      exact Or.inl hu
    · exact absurd hlo hl
    · simp only [alnumUpper, Bool.or_eq_true]
      exact Or.inr hd

theorem pnrShape_upper {g : List Char} (h5 : 5 ≤ g.length) (h8 : g.length ≤ 8)
    (hall : ∀ c ∈ g, alnumCi c = true) :
    pnrShape (String.mk (upperData g)) = true := by
  have hdata : (String.mk (upperData g)).data = upperData g := rfl
  simp only [pnrShape, hdata, upperData, List.length_map, List.all_eq_true,
    Bool.and_eq_true, decide_eq_true_eq]
  refine ⟨⟨h5, h8⟩, ?_⟩
  intro c hc
  obtain ⟨x, hx, hxc⟩ := List.mem_map.mp hc
  rw [← hxc]
  exact upperChar_alnum (hall x hx)

theorem pnrPat_inv_any {p : Re} (hp : p ∈ pnrPatterns)
    {prev : Option Char} {u : List Char} {nxt : Option Char}
    {caps caps' : List (Nat × List Char)}
    (h : RMatch p prev u nxt caps caps') :
    ∃ g, caps' = (1, g) :: caps ∧ 5 ≤ g.length ∧ g.length ≤ 8 ∧
      ∀ c ∈ g, alnumCi c = true := by
  simp only [pnrPatterns, List.mem_cons, List.not_mem_nil, or_false] at hp
  rcases hp with h1 | h2 | h3
  · subst h1; exact pnrPat1_inv h
  · subst h2; exact pnrPat2_inv h
  · subst h3; exact pnrPat3_inv h

theorem pnrCascade_shape (ps : List Re) (hps : ∀ p ∈ ps, p ∈ pnrPatterns)
    (t : List Char) :
    pnrCascade ps t = "" ∨ pnrShape (pnrCascade ps t) = true := by
  induction ps with
  | nil => exact Or.inl rfl
  | cons p rest ih =>
    have hrec := ih (fun q hq => hps q (List.mem_cons_of_mem _ hq))
    have heq : pnrCascade (p :: rest) t =
        match reSearch p t with
        | none => pnrCascade rest t
        | some caps =>
          let cand := String.mk (upperData (groupOf caps 1))
          if PNR_STOPWORDS.contains cand then pnrCascade rest t else cand := rfl
    rw [heq]
    rcases hs : reSearch p t with _ | caps
    · exact hrec
    · dsimp only
      split_ifs with hstop
      · exact hrec
      · right
        obtain ⟨d, u, rest', _, hm⟩ := reSearch_sound hs
        obtain ⟨g, hcaps, h5, h8, hall⟩ := pnrPat_inv_any (hps p (List.mem_cons_self _ _)) hm
        have hgrp : groupOf caps 1 = g := by
          rw [hcaps]
          simp [groupOf, lookupCap]
        rw [hgrp]
        exact pnrShape_upper h5 h8 hall

theorem extract_pnr_shape (t : String) :
    extract_pnr t = "" ∨ pnrShape (extract_pnr t) = true :=
  pnrCascade_shape pnrPatterns (fun _ hp => hp) t.data

theorem alnumCi_of_upper {c : Char} (h : alnumUpper c = true) : alnumCi c = true := by
  simp only [alnumUpper, Bool.or_eq_true] at h
  simp only [alnumCi, isAlphaB, Bool.or_eq_true]
  rcases h with hu | hd
  · exact Or.inl (Or.inl hu)
  · exact Or.inr hd

theorem fnPat1_inv {prev : Option Char} {u : List Char} {nxt : Option Char}
    {caps caps' : List (Nat × List Char)}
    (h : RMatch fnPat1 prev u nxt caps caps') :
    ∃ g1 g2, caps' = (2, g2) :: (1, g1) :: caps ∧
      g1.length = 2 ∧ (∀ c ∈ g1, alnumUpper c = true) ∧
      1 ≤ g2.length ∧ g2.length ≤ 4 ∧ (∀ c ∈ g2, isDigitB c = true) := by
  cases h with
  | @seq _ _ _ u1 v1 _ _ _ _ h1 h2 =>
    cases h1 with
    | wb hb1 =>
      cases h2 with
      | @seq _ _ _ u2 v2 _ _ _ _ h3 h4 =>
        cases h3 with
        | @grp _ _ _ g1 _ _ _ h3x =>
          cases h3x with
          | rep hall1 hlo1 hhi1 =>
            cases h4 with
            | @seq _ _ _ sp v3 _ _ _ _ h5 h6 =>
              cases h5 with
              | rep hsp hsl hsh =>
                cases h6 with
                | @seq _ _ _ u5 v5 _ _ _ _ h7 h8 =>
                  cases h7 with
                  | @grp _ _ _ g2 _ _ _ h7x =>
                    cases h7x with
                    | rep hall2 hlo2 hhi2 =>
                      cases h8 with
                      | wb hb2 =>
                        refine ⟨u2, u5, by simp, ?_, hall1, hlo2, hhi2 4 rfl, hall2⟩
                        have := hhi1 2 rfl
                        omega

theorem fnPat2_inv {prev : Option Char} {u : List Char} {nxt : Option Char}
    {caps caps' : List (Nat × List Char)}
    (h : RMatch fnPat2 prev u nxt caps caps') :
    ∃ g1 sp ds, caps' = (1, g1 ++ (sp ++ ds)) :: caps ∧
      g1.length = 2 ∧ (∀ c ∈ g1, alnumCi c = true) ∧
      sp.length ≤ 1 ∧ (∀ c ∈ sp, isSpaceB c = true) ∧
      1 ≤ ds.length ∧ ds.length ≤ 4 ∧ (∀ c ∈ ds, isDigitB c = true) := by
  obtain ⟨_, _, _, h2⟩ := seqGrpFree_peel h rfl
  obtain ⟨_, _, _, h4⟩ := seqGrpFree_peel h2 rfl
  obtain ⟨_, _, _, h6⟩ := seqGrpFree_peel h4 rfl
  cases h6 with
  | @grp _ _ _ gg _ _ _ h7 =>
    cases h7 with
    | @seq _ _ _ g1 v1 _ _ _ _ h8 h9 =>
      cases h8 with
      | rep hall1 hlo1 hhi1 =>
        cases h9 with
        | @seq _ _ _ spv dsv _ _ _ _ h10 h11 =>
          cases h10 with
          | rep hsp hsl hsh =>
            cases h11 with
            | rep hall2 hlo2 hhi2 =>
              refine ⟨g1, spv, dsv, rfl, ?_, hall1, hsh 1 rfl, hsp, hlo2, hhi2 4 rfl, hall2⟩
              have := hhi1 2 rfl
              omega

theorem fnPick_shape :
    ∀ {ms : List (List (Nat × List Char))} {s : String}, fnPick ms = some s →
    ∃ caps ∈ ms, s = String.mk (groupOf caps 1 ++ groupOf caps 2) := by
  intro ms
  induction ms with
  | nil => intro s h; cases h
  | cons caps rest ih =>
    intro s h
    have heq : fnPick (caps :: rest) =
        if fnAccept (groupOf caps 1) then
          some (String.mk (groupOf caps 1 ++ groupOf caps 2))
        else fnPick rest := rfl
    rw [heq] at h
    split_ifs at h with hacc
    · cases h
      exact ⟨caps, List.mem_cons_self _ _, rfl⟩
    · obtain ⟨c2, hm, he⟩ := ih h
      exact ⟨c2, List.mem_cons_of_mem _ hm, he⟩

theorem alnum_keeps {c : Char} (h : alnumCi c = true) : (!(c == ' ')) = true := by
  simp only [alnumCi, isAlphaB, isUpperB, isLowerB, isDigitB, Bool.or_eq_true,
    Bool.and_eq_true, decide_eq_true_eq] at h
  simp only [Bool.not_eq_eq_eq_not, Bool.not_true, beq_eq_false_iff_ne, ne_eq]
  intro he
  subst he
  exact absurd h (by decide)

theorem digit_keeps {c : Char} (h : isDigitB c = true) : (!(c == ' ')) = true := by
  simp only [isDigitB, Bool.and_eq_true, decide_eq_true_eq] at h
  simp only [Bool.not_eq_eq_eq_not, Bool.not_true, beq_eq_false_iff_ne, ne_eq]
  intro he
  subst he
  exact absurd h (by decide)

theorem filter_all_keep {l : List Char} (h : ∀ c ∈ l, (!(c == ' ')) = true) :
    l.filter (fun c => !(c == ' ')) = l :=
  List.filter_eq_self.mpr h

theorem fnLooseShape_cons (a b : Char) (rest : List Char) :
    fnLooseShape (String.mk (a :: b :: rest)) =
      (alnumCi a && alnumCi b &&
        (digitRun14 rest ||
          (match rest with
           | c :: rest2 => isSpaceB c && !(c == ' ') && digitRun14 rest2
           | [] => false))) := rfl

theorem fnLooseShape_filtered {g1 sp ds : List Char}
    (h1 : g1.length = 2) (ha : ∀ c ∈ g1, alnumCi c = true)
    (hsl : sp.length ≤ 1) (hsp : ∀ c ∈ sp, isSpaceB c = true)
    (hd1 : 1 ≤ ds.length) (hd4 : ds.length ≤ 4) (hd : ∀ c ∈ ds, isDigitB c = true) :
    fnLooseShape (String.mk ((g1 ++ (sp ++ ds)).filter (fun c => !(c == ' ')))) = true := by
  rcases g1 with _ | ⟨a, g1'⟩
  · simp at h1
  rcases g1' with _ | ⟨b, g1''⟩
  · simp at h1
  rcases g1'' with _ | ⟨x, _⟩
  · have haa : alnumCi a = true := ha a (by simp)
    have hab : alnumCi b = true := ha b (by simp)
    have hdsf : ds.filter (fun c => !(c == ' ')) = ds :=
      filter_all_keep (fun c hc => digit_keeps (hd c hc))
    have hdr : digitRun14 ds = true := by
      simp only [digitRun14, Bool.and_eq_true, decide_eq_true_eq, List.all_eq_true]
      exact ⟨⟨hd1, hd4⟩, hd⟩
    rcases sp with _ | ⟨w, sp'⟩
    · have hf : ((a :: b :: []) ++ ([] ++ ds)).filter (fun c => !(c == ' ')) =
          a :: b :: ds := by
        simp only [List.cons_append, List.nil_append, List.filter_cons,
          alnum_keeps haa, alnum_keeps hab, if_true, hdsf]
      rw [hf, fnLooseShape_cons]
      simp [haa, hab, hdr]
    · rcases sp' with _ | ⟨w2, sp''⟩
      · by_cases hw : (w == ' ') = true
        · have hw0 : (!(w == ' ')) = false := by rw [hw]; rfl
          have hf : ((a :: b :: []) ++ ((w :: []) ++ ds)).filter (fun c => !(c == ' ')) =
              a :: b :: ds := by
            simp only [List.cons_append, List.nil_append, List.filter_cons,
              alnum_keeps haa, alnum_keeps hab, if_true, hw0, Bool.false_eq_true, if_false, hdsf]
          rw [hf, fnLooseShape_cons]
          simp [haa, hab, hdr]
        · have hw' : (!(w == ' ')) = true := by
            rw [Bool.eq_false_iff.mpr hw]; rfl
          have hf : ((a :: b :: []) ++ ((w :: []) ++ ds)).filter (fun c => !(c == ' ')) =
              a :: b :: w :: ds := by
            simp only [List.cons_append, List.nil_append, List.filter_cons,
              alnum_keeps haa, alnum_keeps hab, hw', if_true, hdsf]
          rw [hf, fnLooseShape_cons]
          have hsw : isSpaceB w = true := hsp w (by simp)
          simp [haa, hab, hdr, hsw, hw']
      · simp only [List.length_cons] at hsl
        omega
  · simp at h1

theorem extract_flight_number_shape (t : String) :
    extract_flight_number t = "" ∨ fnLooseShape (extract_flight_number t) = true := by
  have heq : extract_flight_number t =
      match fnPick (finditer fnPat1 t.data) with
      | some s => s
      | none =>
        match reSearch fnPat2 t.data with
        | some caps => String.mk ((groupOf caps 1).filter (fun c => !(c == ' ')))
        | none => "" := rfl
  rw [heq]
  rcases hp : fnPick (finditer fnPat1 t.data) with _ | s
  · simp only [hp]
    rcases hs : reSearch fnPat2 t.data with _ | caps
    · simp only [hs]
      exact Or.inl trivial
    · simp only [hs]
      right
      obtain ⟨d, u, rest', _, hm⟩ := reSearch_sound hs
      obtain ⟨g1, sp, ds, hcaps, hl1, hall1, hsl, hsp, hd1, hd4, hall2⟩ := fnPat2_inv hm
      have hgrp : groupOf caps 1 = g1 ++ (sp ++ ds) := by
        rw [hcaps]
        simp [groupOf, lookupCap]
      rw [hgrp]
      exact fnLooseShape_filtered hl1 hall1 hsl hsp hd1 hd4 hall2
  · simp only [hp]
    right
    obtain ⟨caps, hmem, hseq⟩ := fnPick_shape hp
    obtain ⟨d, u, rest', _, hm⟩ := finditer_sound hmem
    obtain ⟨g1, g2, hcaps, hl1, hall1, hd1, hd4, hall2⟩ := fnPat1_inv hm
    have hg1 : groupOf caps 1 = g1 := by
      rw [hcaps]
      simp [groupOf, lookupCap]
    have hg2 : groupOf caps 2 = g2 := by
      rw [hcaps]
      simp [groupOf, lookupCap]
    rw [hseq, hg1, hg2]
    rcases g1 with _ | ⟨a, g1'⟩
    · simp at hl1
    rcases g1' with _ | ⟨b, g1''⟩
    · simp at hl1
    rcases g1'' with _ | ⟨x, _⟩
    · have haa : alnumCi a = true := alnumCi_of_upper (hall1 a (by simp))
      have hab : alnumCi b = true := alnumCi_of_upper (hall1 b (by simp))
      have hdr : digitRun14 g2 = true := by
        simp only [digitRun14, Bool.and_eq_true, decide_eq_true_eq, List.all_eq_true]
        exact ⟨⟨hd1, hd4⟩, hall2⟩
      have hcons : (a :: b :: []) ++ g2 = a :: b :: g2 := rfl
      rw [hcons, fnLooseShape_cons]
      simp [haa, hab, hdr]
    · simp at hl1

theorem airportShape_upper {g : List Char} (h3 : g.length = 3)
    (hu : ∀ c ∈ g, isUpperB c = true) : airportShape (String.mk g) = true := by
  have hdata : (String.mk g).data = g := rfl
  simp only [airportShape, hdata, List.all_eq_true, Bool.and_eq_true, beq_iff_eq]
  exact ⟨h3, hu⟩

theorem airportShape_valid {g : List Char} (h3 : g.length = 3)
    (halpha : ∀ c ∈ g, isAlphaB c = true) (hv : valid_airport g = true) :
    airportShape (String.mk g) = true := by
  unfold valid_airport at hv
  rw [Bool.and_eq_true] at hv
  exact airportShape_upper h3 (pyIsUpper_upper hv.1 halpha)

theorem kwPat_group_shape {kw : Re} (hg : grpFree kw = true) {t : List Char}
    {caps : List (Nat × List Char)}
    (h : caps ∈ finditer (Re.seq kw (Re.seq wsStar
      (Re.seq (reOpt (Re.cls (charCI ':')))
      (Re.seq wsStar (Re.seq (Re.rep isDotB 0 (some 30) true) apGroupTail))))) t) :
    (groupOf caps 1).length = 3 ∧ ∀ c ∈ groupOf caps 1, isAlphaB c = true := by
  obtain ⟨d, u, rest', _, hm⟩ := finditer_sound h
  obtain ⟨w, g, _, hcaps, hlen, halpha, _, _⟩ := kwTail_inv hg hm
  have hgrp : groupOf caps 1 = g := by
    rw [hcaps]
    simp [groupOf, lookupCap]
  rw [hgrp]
  exact ⟨hlen, halpha⟩

theorem pickAirport_shape_of (ms : List (List (Nat × List Char)))
    (hms : ∀ caps ∈ ms,
      (groupOf caps 1).length = 3 ∧ ∀ c ∈ groupOf caps 1, isAlphaB c = true) :
    pickAirport ms = "" ∨ airportShape (pickAirport ms) = true := by
  induction ms with
  | nil => exact Or.inl rfl
  | cons caps rest ih =>
    have hd := hms caps (List.mem_cons_self _ _)
    have heq : pickAirport (caps :: rest) =
        if valid_airport (groupOf caps 1) then String.mk (groupOf caps 1)
        else pickAirport rest := rfl
    rw [heq]
    split_ifs with hv
    · exact Or.inr (airportShape_valid hd.1 hd.2 hv)
    · exact ih (fun c hc => hms c (List.mem_cons_of_mem _ hc))

theorem routePat_group_shape {t : List Char} {caps : List (Nat × List Char)}
    (hs : reSearch routePat t = some caps) :
    (groupOf caps 1).length = 3 ∧ (∀ c ∈ groupOf caps 1, isUpperB c = true) ∧
    (groupOf caps 2).length = 3 ∧ (∀ c ∈ groupOf caps 2, isUpperB c = true) := by
  obtain ⟨d, u, rest', _, hm⟩ := reSearch_sound hs
  obtain ⟨g1, mid, g2, _, hcaps, hl1, hu1, hl2, hu2, _, _, _, _, _⟩ := routePat_inv hm
  have hg1 : groupOf caps 1 = g1 := by
    rw [hcaps]
    simp [groupOf, lookupCap]
  have hg2 : groupOf caps 2 = g2 := by
    rw [hcaps]
    simp [groupOf, lookupCap]
  rw [hg1, hg2]
  exact ⟨hl1, hu1, hl2, hu2⟩

theorem extract_airport_codes_shape (t : String) :
    ((extract_airport_codes t).1 = "" ∨
      airportShape (extract_airport_codes t).1 = true) ∧
    ((extract_airport_codes t).2 = "" ∨
      airportShape (extract_airport_codes t).2 = true) := by
  have hfrom := pickAirport_shape_of (finditer fromPat t.data)
    (fun caps hc => @kwPat_group_shape
      (altL [litOf true "from", litOf true "departure",
             litOf true "depart", litOf true "origin"]) rfl t.data caps hc)
  have hto := pickAirport_shape_of (finditer toPat t.data)
    (fun caps hc => @kwPat_group_shape
      (altL [litOf true "to", litOf true "arrival",
             litOf true "arrive", litOf true "destination"]) rfl t.data caps hc)
  have heq : extract_airport_codes t =
      (if pickAirport (finditer fromPat t.data) == "" ||
          pickAirport (finditer toPat t.data) == "" then
        match reSearch routePat t.data with
        | some caps =>
          (if pickAirport (finditer fromPat t.data) == "" &&
              valid_airport (groupOf caps 1)
             then String.mk (groupOf caps 1)
             else pickAirport (finditer fromPat t.data),
           if pickAirport (finditer toPat t.data) == "" &&
              valid_airport (groupOf caps 2)
             then String.mk (groupOf caps 2)
             else pickAirport (finditer toPat t.data))
        | none => (pickAirport (finditer fromPat t.data),
                   pickAirport (finditer toPat t.data))
      else (pickAirport (finditer fromPat t.data),
            pickAirport (finditer toPat t.data))) := rfl
  rw [heq]
  split_ifs with hcond
  · rcases hs : reSearch routePat t.data with _ | caps
    · simp only [hs]
      exact ⟨hfrom, hto⟩
    · simp only [hs]
      obtain ⟨hl1, hu1, hl2, hu2⟩ := routePat_group_shape hs
      constructor
      · by_cases h1 : (pickAirport (finditer fromPat t.data) == "" &&
            valid_airport (groupOf caps 1)) = true
        · simp only [h1, if_true]
          exact Or.inr (airportShape_upper hl1 hu1)
        · simp only [h1, Bool.false_eq_true, if_false]
          exact hfrom
      · by_cases h2 : (pickAirport (finditer toPat t.data) == "" &&
            valid_airport (groupOf caps 2)) = true
        · simp only [h2, if_true]
          exact Or.inr (airportShape_upper hl2 hu2)
        · simp only [h2, Bool.false_eq_true, if_false]
          exact hto
  · exact ⟨hfrom, hto⟩

/-- C2 counterexample: on the body "flight ai 302" the assembler's
flightNumber field is "ai302", which is non-empty yet fails the claimed
IATA grammar (two uppercase alphanumerics then one to four digits): the
fallback pattern is case-insensitive and its result is not upper-cased. -/
theorem claim_C2_counterexample :
    (parse_email ⟨"", "", "", "flight ai 302"⟩).1.flightNumber = "ai302" ∧
    flightNumGrammar "ai302" = false ∧ "ai302" ≠ "" := by decide

/-- C2 (corrected): every field of the assembled record other than
subject and receivedDate is either empty or of a constrained shape,
but the flight-number grammar must be loosened: the code only
guarantees two alphanumerics of either case, an optional non-space
whitespace remnant, then one to four digits (fnLooseShape).  The date
is a normalized YYYY-MM-DD string, the airline one of the two tables'
names, the airports three uppercase letters, and the booking reference
five to eight uppercase alphanumerics; empty string is the only
"unknown" sentinel (the fields are total strings, never null). -/
theorem claim_C2 (m : EmailMsg) :
    ((parse_email m).1.date = "" ∨ dateShape (parse_email m).1.date = true) ∧
    ((parse_email m).1.airline = "" ∨
      (parse_email m).1.airline ∈ KNOWN_AIRLINES.map Prod.snd ∨
      (parse_email m).1.airline ∈ AIRLINE_CODES.map Prod.snd) ∧
    ((parse_email m).1.flightNumber = "" ∨
      fnLooseShape (parse_email m).1.flightNumber = true) ∧
    ((parse_email m).1.fromCode = "" ∨
      airportShape (parse_email m).1.fromCode = true) ∧
    ((parse_email m).1.toCode = "" ∨
      airportShape (parse_email m).1.toCode = true) ∧
    ((parse_email m).1.pnr = "" ∨ pnrShape (parse_email m).1.pnr = true) := by
  have hdate : (parse_email m).1.date =
      (if extract_flight_date (m.subject ++ " " ++ m.body) == "" then
        parseEmailDate m.dateHeader
      else extract_flight_date (m.subject ++ " " ++ m.body)) := rfl
  have hair : (parse_email m).1.airline =
      extract_airline (m.subject ++ " " ++ m.body) m.sender := rfl
  have hfn : (parse_email m).1.flightNumber =
      extract_flight_number (m.subject ++ " " ++ m.body) := rfl
  have hfromc : (parse_email m).1.fromCode =
      (extract_airport_codes (m.subject ++ " " ++ m.body)).1 := rfl
  have htoc : (parse_email m).1.toCode =
      (extract_airport_codes (m.subject ++ " " ++ m.body)).2 := rfl
  have hpnr : (parse_email m).1.pnr =
      extract_pnr (m.subject ++ " " ++ m.body) := rfl
  refine ⟨?_, ?_, ?_, ?_, ?_, ?_⟩
  · rw [hdate]
    split_ifs with h
    · exact parseEmailDate_shape m.dateHeader
    · exact extract_flight_date_shape _
  · rw [hair]
    exact extract_airline_mem _ _
  · rw [hfn]
    exact extract_flight_number_shape _
  · rw [hfromc]
    exact (extract_airport_codes_shape _).1
  · rw [htoc]
    exact (extract_airport_codes_shape _).2
  · rw [hpnr]
    exact extract_pnr_shape _
